import Mathlib

/-!
# Verification of the k8s-replicator replication engine

Shallow embedding of the `replicate` package of olli-ai/k8s-replicator:
the annotation registry (`annotations.go`), the pure policy functions
(`common.go`) and the event-driven replication engine (`objectreplicator.go`,
given as an unnamed source part).

Modelling conventions:
* Go strings are Lean `String`s; Go `map[string]string` values keyed by
  annotation names are association lists `List (String × String)`.
* Go maps used as sets (`map[string]bool`) are modelled as duplicate-free
  lists in first-insertion order; Go's unspecified map iteration order is
  resolved to that insertion order.
* The engine's graph maps (`targetsFrom`, `targetsTo`, `watchedTargets`,
  `watchedPatterns`) never store an empty slice in the Go code (every write
  site guards on non-emptiness), so map entries are association-list entries
  and a missing entry reads as the empty list.
* Regular expressions are kept as their source strings; compilation success
  and matching are provided by an abstract, arbitrary `RegexEngine`, so all
  theorems quantify over every possible regex semantics.  The two fixed
  regexes `validName` and `validPath` of `common.go` are implemented
  directly.
* Kubernetes API calls made through the per-kind adapter are resolved by an
  arbitrary response stream carried in the engine state (`api`): each
  adapter call pops one response, `none` meaning the call failed.
* The payloads of replicated objects are opaque to the engine; an object is
  represented by its `ObjectMeta`.
-/

namespace KR

/-- Object metadata, the part of a Kubernetes object the engine reads:
`ObjectMeta{Namespace, Name, ResourceVersion, Annotations, Labels}`. -/
structure Meta where
  ns : String
  name : String
  rv : String
  ann : List (String × String)
  labels : List (String × String) := []
  deriving Repr, DecidableEq

/-- The canonical key `"<namespace>/<name>"` of an object. -/
def metaKey (m : Meta) : String := m.ns ++ "/" ++ m.name

/-- Association-list lookup (Go `v, ok := m[k]`). -/
def alookup {α : Type} : List (String × α) → String → Option α
  | [], _ => none
  | (k, v) :: rest, key => if k = key then some v else alookup rest key

/-- Association-list write (Go `m[k] = v`). -/
def aset {α : Type} : List (String × α) → String → α → List (String × α)
  | [], key, v => [(key, v)]
  | (k, w) :: rest, key, v =>
    if k = key then (key, v) :: rest else (k, w) :: aset rest key v

/-- Association-list delete (Go `delete(m, k)`). -/
def adel {α : Type} : List (String × α) → String → List (String × α)
  | [], _ => []
  | (k, w) :: rest, key =>
    if k = key then adel rest key else (k, w) :: adel rest key

/-- Lookup in a graph map, a missing entry reading as the empty list. -/
def lookupD {α : Type} (m : List (String × List α)) (k : String) : List α :=
  (alookup m k).getD []

/-- Insert into a duplicate-free list modelling a Go `map[string]bool`
used as a set (first-insertion order). -/
def insertUniq (l : List String) (x : String) : List String :=
  if x ∈ l then l else l ++ [x]

/-- Go `strconv.ParseBool`. -/
def goParseBool : String → Option Bool
  | "1" | "t" | "T" | "TRUE" | "true" | "True" => some true
  | "0" | "f" | "F" | "FALSE" | "false" | "False" => some false
  | _ => none

/-- A character of the class `[0-9a-z.-]`. -/
def nameChar (c : Char) : Bool :=
  ('0' ≤ c && c ≤ '9') || ('a' ≤ c && c ≤ 'z') || c = '.' || c = '-'

/-- The fixed regex `^[0-9a-z.-]+$` (`validName` in common.go). -/
def validName (s : String) : Bool :=
  s ≠ "" && s.toList.all nameChar

/-- Worker for `splitChar`, accumulating the current field reversed. -/
def splitCharAux (c : Char) : List Char → List Char → List String
  | [], acc => [String.mk acc.reverse]
  | x :: rest, acc =>
    if x = c then String.mk acc.reverse :: splitCharAux c rest []
    else splitCharAux c rest (x :: acc)

/-- Go `strings.Split(s, sep)` for the single-character separators the
engine uses (`","` and `"/"`). -/
def splitChar (c : Char) (s : String) : List String :=
  splitCharAux c s.toList []

/-- Rejoin with `/` (for the remainder field of `strings.SplitN`). -/
def joinSlash : List String → String
  | [] => ""
  | [x] => x
  | x :: rest => x ++ "/" ++ joinSlash rest

/-- The fixed regex `^(?:[0-9a-z.-]+/)?[0-9a-z.-]+$` (`validPath`). -/
def validPath (s : String) : Bool :=
  match splitChar '/' s with
  | [x] => validName x
  | [x, y] => validName x && validName y
  | _ => false

/-- Go `strings.SplitN(s, "/", 2)`. -/
def splitN2 (s : String) : List String :=
  match splitChar '/' s with
  | [] => [s]
  | [a] => [a]
  | a :: rest => [a, joinSlash rest]

/-- Go `strings.SplitN(s, "/", 3)`. -/
def splitN3 (s : String) : List String :=
  match splitChar '/' s with
  | [] => [s]
  | [a] => [a]
  | [a, b] => [a, b]
  | a :: b :: rest => [a, b, joinSlash rest]

/-- First component of `strings.SplitN(s, "/", 2)`. -/
def nsPart (s : String) : String := (splitN2 s).headD s

/-- Go `strings.ContainsAny(s, "/")`. -/
def containsSlash (s : String) : Bool := s.toList.contains '/'

/-! ## Annotation registry (annotations.go) -/

/-- The recognized annotation suffixes (the keys of `annotationRefs`,
fixed at package initialisation). -/
def baseSuffixes : List String :=
  ["replicate-from", "replicate-to", "replicate-to-namespaces",
   "replicate-once", "replicate-once-version", "replicated-at",
   "replicated-by", "replicated-from-version", "replication-allowed",
   "replication-allowed-namespaces"]

/-- Prefix normalisation done by `PrefixAnnotations`: a non-empty prefix
whose last character is not `/` gets one appended
(Go: `prefix[len(prefix)-1] != '/'`). -/
def normPfx (p : String) : String :=
  if !p.isEmpty && !(p.toList.getLast? == some '/') then p ++ "/" else p

/-- The registry state: each suffix mapped to its current full key.
Initially every key equals its suffix. -/
def regInit : List (String × String) := baseSuffixes.map (fun s => (s, s))

/-- `PrefixAnnotations(p)`: every recognized annotation key becomes the
normalised prefix followed by the (fixed) suffix. -/
def applyAnnPfx (p : String) (reg : List (String × String)) :
    List (String × String) :=
  reg.map (fun e => (e.1, normPfx p ++ e.1))

/-! ## Engine configuration and regex abstraction -/

/-- Replicator options plus process-wide configuration: the `--allow-all`
and `--ignore-unknown` flags, the creation labels, the (already
normalised) annotations prefix, and the current wall-clock reading used
for `replicated-at`. -/
structure Config where
  allowAll : Bool
  ignoreUnknown : Bool
  labels : List (String × String) := []
  pfx : String := ""
  now : String := "now"

/-- Current full key of each annotation, `prefix + suffix`. -/
def annFrom (cfg : Config) : String := cfg.pfx ++ "replicate-from"
def annTo (cfg : Config) : String := cfg.pfx ++ "replicate-to"
def annToNs (cfg : Config) : String := cfg.pfx ++ "replicate-to-namespaces"
def annOnce (cfg : Config) : String := cfg.pfx ++ "replicate-once"
def annOnceVersion (cfg : Config) : String := cfg.pfx ++ "replicate-once-version"
def annAt (cfg : Config) : String := cfg.pfx ++ "replicated-at"
def annBy (cfg : Config) : String := cfg.pfx ++ "replicated-by"
def annFromVersion (cfg : Config) : String := cfg.pfx ++ "replicated-from-version"
def annAllowed (cfg : Config) : String := cfg.pfx ++ "replication-allowed"
def annAllowedNs (cfg : Config) : String := cfg.pfx ++ "replication-allowed-namespaces"

/-- `UnknownAnnotations`: the keys carrying the configured prefix whose
suffix is not recognized; nothing when the prefix is empty. -/
def unknownAnns (cfg : Config) (ann : List (String × String)) : List String :=
  if cfg.pfx = "" then []
  else (ann.map (·.1)).filter fun k =>
    cfg.pfx.isPrefixOf k && !(baseSuffixes.contains (k.drop cfg.pfx.length))

/-- Abstract regular-expression semantics: whether an (anchored) pattern
source compiles, and whether a compiled pattern matches a string.  All
theorems quantify over every engine. -/
structure RegexEngine where
  compiles : String → Bool
  pmatch : String → String → Bool

/-- The anchored form `^(?:<expr>)$` used for every namespace pattern. -/
def anchored (ns : String) : String := "^(?:" ++ ns ++ ")$"

/-- `targetPattern`: a compiled namespace pattern (kept as its anchored
source string) and a literal name. -/
structure TargetPattern where
  pat : String
  name : String
  deriving Repr, DecidableEq

/-- `targetPattern.Match`: name equality plus namespace regex match. -/
def patMatchMeta (eng : RegexEngine) (p : TargetPattern) (m : Meta) : Bool :=
  m.name == p.name && eng.pmatch p.pat m.ns

/-- `targetPattern.MatchString` on a `ns/name` target path. -/
def patMatchString (eng : RegexEngine) (p : TargetPattern) (target : String) : Bool :=
  match splitN2 target with
  | [a, b] => b == p.name && eng.pmatch p.pat a
  | _ => false

/-- `targetPattern.MatchNamespace`: the qualified key in a matching
namespace, or the empty string. -/
def patMatchNs (eng : RegexEngine) (p : TargetPattern) (ns : String) : String :=
  if eng.pmatch p.pat ns then ns ++ "/" ++ p.name else ""

/-- `targetPattern.Targets`: the target paths over the matching namespaces. -/
def patTargets (eng : RegexEngine) (p : TargetPattern) (nss : List String) : List String :=
  (nss.filter (eng.pmatch p.pat)).map (fun ns => ns ++ "/" ++ p.name)

/-! ## Pure policy functions (common.go) -/

/-- `resolveAnnotation`: the annotation as `namespace/name`, a bare name
given the object's own namespace. -/
def resolveAnn (m : Meta) (key : String) : Option String :=
  match alookup m.ann key with
  | none => none
  | some val =>
    if containsSlash val then some val else some (m.ns ++ "/" ++ val)

/-- `annotationRefersTo`: the annotation of `m` references `ref`. -/
def annRefersTo (m : Meta) (key : String) (ref : Meta) : Bool :=
  match alookup m.ann key with
  | none => false
  | some val =>
    match splitN2 val with
    | [a, b] => a == ref.ns && b == ref.name
    | _ => m.ns == ref.ns && val == ref.name

/-- The `replication-allowed-namespaces` loop of `isReplicationAllowed`:
`none` on the first regex compilation failure, else whether any item
allowed the target namespace. -/
def allowedNsLoop (eng : RegexEngine) (objNs : String) :
    List String → Bool → Option Bool
  | [], acc => some acc
  | ns :: rest, acc =>
    if ns = "" then allowedNsLoop eng objNs rest acc
    else if validName ns then
      allowedNsLoop eng objNs rest (acc || ns == objNs)
    else if eng.compiles (anchored ns) then
      allowedNsLoop eng objNs rest (acc || eng.pmatch (anchored ns) objNs)
    else none

/-- `isReplicationAllowed(object, sourceObject) → (allowed, disallowed, err)`. -/
def isReplicationAllowed (cfg : Config) (eng : RegexEngine)
    (object sourceObject : Meta) : Bool × Bool × Option String :=
  let aAllowed := alookup sourceObject.ann (annAllowed cfg)
  let aNs := alookup sourceObject.ann (annAllowedNs cfg)
  -- unless AllowAll, explicit permission is required
  if !cfg.allowAll && aAllowed = none && aNs = none then
    (false, true, some "does not explicitely allow replication")
  else
    -- check allow annotation
    match aAllowed with
    | some v =>
      match goParseBool v with
      | none => (false, false, some "illformed replication-allowed")
      | some false => (false, true, some "explicitely disallow replication")
      | some true => isReplicationAllowedNs cfg eng object sourceObject aNs
    | none => isReplicationAllowedNs cfg eng object sourceObject aNs
where
  /-- The namespace check and the source-is-a-replica check. -/
  isReplicationAllowedNs (cfg : Config) (eng : RegexEngine)
      (object sourceObject : Meta) (aNs : Option String) :
      Bool × Bool × Option String :=
    let tail :=
      match resolveAnn sourceObject (annFrom cfg) with
      | some _ => (false, true, some "is already replicated from")
      | none => (true, false, none)
    match aNs with
    | none => tail
    | some str =>
      match allowedNsLoop eng object.ns (splitChar ',' str) false with
      | none => (false, false, some "compilation error")
      | some false => (false, true, some "does not allow replication to namespace")
      | some true => tail

/-- `needsDataUpdate(object, sourceObject) → (needs, once, err)`. -/
def needsDataUpdate (cfg : Config) (object sourceObject : Meta) :
    Bool × Bool × Option String :=
  match alookup object.ann (annFromVersion cfg) with
  -- target was "replicated" from a deleted source, or never replicated
  | none => (true, false, none)
  | some targetVersion =>
    if targetVersion = sourceObject.rv then
      (false, false, some "is already up-to-date")
    else
      -- check the once annotations
      let srcOnce : Option (Option Bool) :=
        match alookup sourceObject.ann (annOnce cfg) with
        | none => some none
        | some s => match goParseBool s with
          | none => none
          | some b => some (some b)
      match srcOnce with
      | none => (false, false, some "source has illformed replicate-once")
      | some srcB =>
        let tgtOnce : Option (Option Bool) :=
          match alookup object.ann (annOnce cfg) with
          | none => some none
          | some s => match goParseBool s with
            | none => none
            | some b => some (some b)
        match tgtOnce with
        | none => (false, false, some "target has illformed replicate-once")
        | some tgtB =>
          let hasOnce := srcB.getD false || tgtB.getD false
          -- check the version annotations
          if !hasOnce then (true, false, none)
          else
            match alookup sourceObject.ann (annOnceVersion cfg) with
            | none => (false, true, some "is already replicated once")
            | some sourceVersion =>
              match alookup object.ann (annOnceVersion cfg) with
              | some version =>
                if sourceVersion = version then
                  (false, true, some "is already replicated once at current version")
                else (true, false, none)
              | none => (true, false, none)

/-- `needsFromAnnotationsUpdate(object, sourceObject) → (needs, err)`. -/
def needsFromAnnotsUpdate (cfg : Config) (object sourceObject : Meta) :
    Except String Bool :=
  -- check the "from" annotation
  match resolveAnn sourceObject (annFrom cfg) with
  | none => .error "misses annotation replicate-from"
  | some source =>
    if !validPath source || source = metaKey sourceObject then
      .error "has invalid annotation replicate-from"
    else
      let upd1 :=
        match alookup object.ann (annFrom cfg) with
        | none => true
        | some val => val != source
      -- check "once" annotation of the source
      let sOnce := alookup sourceObject.ann (annOnce cfg)
      let onceOk :=
        match sOnce with
        | none => true
        | some s => (goParseBool s).isSome
      if !onceOk then .error "has illformed annotation replicate-once"
      else
        let upd2 :=
          match sOnce, alookup object.ann (annOnce cfg) with
          | some s, some t => s != t
          | none, none => false
          | _, _ => true
        .ok (upd1 || upd2)

/-- `needsAllowedAnnotationsUpdate(object, sourceObject) → (needs, err)`. -/
def needsAllowedAnnotsUpdate (cfg : Config) (eng : RegexEngine)
    (object sourceObject : Meta) : Except String Bool :=
  let allowed := alookup sourceObject.ann (annAllowed cfg)
  let upd1 :=
    match allowed, alookup object.ann (annAllowed cfg) with
    | some s, some t => s != t
    | none, none => false
    | _, _ => true
  let allowedNs := alookup sourceObject.ann (annAllowedNs cfg)
  let upd2 :=
    match allowedNs, alookup object.ann (annAllowedNs cfg) with
    | some s, some t => s != t
    | none, none => false
    | _, _ => true
  if !(upd1 || upd2) then .ok false
  else
    -- check allow annotation
    let okA :=
      match allowed with
      | none => true
      | some v => (goParseBool v).isSome
    if !okA then .error "has illformed annotation replication-allowed"
    else
      -- check allow-namespaces annotation
      match allowedNs with
      | none => .ok true
      | some str =>
        if (splitChar ',' str).all
            (fun ns => ns = "" || validName ns || eng.compiles (anchored ns)) then
          .ok true
        else .error "compilation error on replication-allowed-namespaces"

/-- `isReplicatedBy(object, sourceObject)`: the target carries
`replicated-by = <source key>` (false also stands for the error result). -/
def isReplicatedBy (cfg : Config) (object sourceObject : Meta) : Bool :=
  alookup object.ann (annBy cfg) == some (metaKey sourceObject)

/-! ### getReplicationTargets -/

/-- Intermediate state of `getReplicationTargets`: the literal targets and
patterns built so far, the `seen` set of qualified paths, and the cache of
successfully compiled (anchored) namespace patterns. -/
structure GrtSt where
  targets : List String
  pats : List TargetPattern
  seen : List String
  cache : List String
  deriving Repr

/-- Splitting of the `replicate-to` annotation into bare names and
qualified paths (the `names` / `qualified` sets). -/
def grtToLoop : List String → List String → List String →
    Except String (List String × List String)
  | [], names, qualified => .ok (names, qualified)
  | n :: rest, names, qualified =>
    if n = "" then grtToLoop rest names qualified
    else if containsSlash n then grtToLoop rest names (insertUniq qualified n)
    else if validName n then grtToLoop rest (insertUniq names n) qualified
    else .error "invalid name on annotation replicate-to"

/-- Splitting of the `replicate-to-namespaces` annotation. -/
def grtNsSplit : List String → List String → Except String (List String)
  | [], acc => .ok acc
  | ns :: rest, acc =>
    if containsSlash ns then .error "invalid namespace pattern"
    else if ns = "" then grtNsSplit rest acc
    else grtNsSplit rest (insertUniq acc ns)

/-- Inner names loop for a literal namespace: emit unseen targets. -/
def grtLitNames (ns : String) : List String → GrtSt → GrtSt
  | [], st => st
  | n :: rest, st =>
    let full := ns ++ "/" ++ n
    if full ∈ st.seen then grtLitNames ns rest st
    else grtLitNames ns rest
      { st with seen := st.seen ++ [full], targets := st.targets ++ [full] }

/-- Inner names loop for a pattern namespace: emit unseen patterns. -/
def grtPatNames (nsRaw aPat : String) : List String → GrtSt → GrtSt
  | [], st => st
  | n :: rest, st =>
    let full := nsRaw ++ "/" ++ n
    if full ∈ st.seen then grtPatNames nsRaw aPat rest st
    else grtPatNames nsRaw aPat rest
      { st with seen := st.seen ++ [full], pats := st.pats ++ [⟨aPat, n⟩] }

/-- The namespaces × names cross-product loop. -/
def grtNsLoop (eng : RegexEngine) (names : List String) :
    List String → GrtSt → Except String GrtSt
  | [], st => .ok st
  | ns :: rest, st =>
    if validName ns then grtNsLoop eng names rest (grtLitNames ns names st)
    else
      let a := anchored ns
      if a ∈ st.cache then grtNsLoop eng names rest (grtPatNames ns a names st)
      else if eng.compiles a then
        grtNsLoop eng names rest
          (grtPatNames ns a names { st with cache := st.cache ++ [a] })
      else .error "compilation error on annotation replicate-to-namespaces"

/-- The loop over qualified `replicate-to` entries. -/
def grtQualLoop (eng : RegexEngine) :
    List String → GrtSt → Except String GrtSt
  | [], st => .ok st
  | q :: rest, st =>
    if q ∈ st.seen then grtQualLoop eng rest st
    else match splitN3 q with
      | [a, b] =>
        if !validName b then .error "invalid name on annotation replicate-to"
        else if validName a then
          grtQualLoop eng rest { st with targets := st.targets ++ [q] }
        else
          let ap := anchored a
          if ap ∈ st.cache then
            grtQualLoop eng rest { st with pats := st.pats ++ [⟨ap, b⟩] }
          else if eng.compiles ap then
            grtQualLoop eng rest
              { st with cache := st.cache ++ [ap], pats := st.pats ++ [⟨ap, b⟩] }
          else .error "compilation error on annotation replicate-to"
      | _ => .error "invalid path on annotation replicate-to"

/-- `getReplicationTargets(object) → (targets, targetPatterns, err)`.
`cachePats` is the engine's `watchedPatterns[key]` entry used to seed the
compiled-patterns cache.  The result is `none` when neither `replicate-to`
annotation is present (Go's nil slices), `some (targets, patterns)`
otherwise. -/
def getReplicationTargets (cfg : Config) (eng : RegexEngine)
    (cachePats : List TargetPattern) (object : Meta) :
    Except String (Option (List String × List TargetPattern)) :=
  let aTo := alookup object.ann (annTo cfg)
  let aToNs := alookup object.ann (annToNs cfg)
  if aTo = none && aToNs = none then .ok none
  else
    let key := metaKey object
    -- split the targets, and check which ones are qualified
    match ((match aTo with
            | none => .ok ([object.name], [])
            | some s => grtToLoop (splitChar ',' s) [] []) :
           Except String (List String × List String)) with
    | .error e => .error e
    | .ok (names, qualified) =>
      -- split the target namespaces
      match ((match aToNs with
              | none => .ok [object.ns]
              | some s => grtNsSplit (splitChar ',' s) []) :
             Except String (List String)) with
      | .error e => .error e
      | .ok namespaces =>
        let st0 : GrtSt :=
          { targets := [], pats := [], seen := [key],
            cache := cachePats.map (·.pat) }
        match grtNsLoop eng names namespaces st0 with
        | .error e => .error e
        | .ok st1 =>
          match grtQualLoop eng qualified st1 with
          | .error e => .error e
          | .ok st2 => .ok (some (st2.targets, st2.pats))

/-- `isReplicatedTo(object, targetObject)`: the target is named by the
source's literal targets or matched by one of its patterns. -/
def isReplicatedTo (cfg : Config) (eng : RegexEngine)
    (cachePats : List TargetPattern) (object targetObject : Meta) :
    Except String Bool :=
  match getReplicationTargets cfg eng cachePats object with
  | .error e => .error e
  | .ok none => .ok false
  | .ok (some (ts, ps)) =>
    let key := metaKey targetObject
    .ok (ts.contains key || ps.any (fun p => patMatchMeta eng p targetObject))

/-! ## Engine state (objectreplicator.go)

The replicator state: the informer caches (object store and namespace
store), the four dependency-graph maps, the pending adapter responses,
and an instrumentation trace of the calls the engine makes (newest
first).  An adapter response of `none` models an API error. -/

/-- Instrumentation of the engine's internal calls and adapter calls. -/
inductive Action where
  /-- entry to `replicateObject(object, sourceObject)` -/
  | replicate (tkey skey : String)
  /-- entry to `installObject(target, targetObject, sourceObject)` -/
  | install (target : String) (hadObj : Bool) (skey : String)
  /-- entry to `doClearObject` -/
  | clearOb (key : String)
  /-- entry to `doDeleteObject` -/
  | deleteOb (key : String)
  /-- the pull section of `ObjectAdded` ran for this key -/
  | pullPass (key : String)
  /-- adapter `Update` call -/
  | apiUpdate (tkey : String) (ann : List (String × String))
  /-- adapter `Clear` call -/
  | apiClear (tkey : String) (ann : List (String × String))
  /-- adapter `Install` call with the composed meta -/
  | apiInstall (m : Meta) (hasData : Bool)
  /-- adapter `Delete` call -/
  | apiDelete (tkey : String)
  deriving Repr, DecidableEq

/-- The mutable state of one `ObjectReplicator`. -/
structure RState where
  objects : List Meta
  namespaces : List String
  targetsFrom : List (String × List String)
  targetsTo : List (String × List String)
  watchedTargets : List (String × List String)
  watchedPatterns : List (String × List TargetPattern)
  api : List (Option Meta)
  trace : List Action := []
  deriving Repr

/-- Store lookup by canonical key (`cache.Store.GetByKey`). -/
def storeGet (objs : List Meta) (key : String) : Option Meta :=
  objs.find? (fun m => metaKey m == key)

/-- Store write-through (`cache.Store.Update`), keyed by the object's key. -/
def storeUpsert : List Meta → Meta → List Meta
  | [], m => [m]
  | x :: rest, m =>
    if metaKey x = metaKey m then m :: rest else x :: storeUpsert rest m

/-- Store delete (`cache.Store.Delete`). -/
def storeDel (objs : List Meta) (key : String) : List Meta :=
  objs.filter (fun m => metaKey m ≠ key)

/-- Pop the next adapter response; an exhausted stream acts as an error. -/
def popApi (s : RState) : Option Meta × RState :=
  match s.api with
  | [] => (none, s)
  | r :: rest => (r, { s with api := rest })

/-- Record an action in the trace. -/
def emit (s : RState) (a : Action) : RState := { s with trace := a :: s.trace }

/-- `getFromStore(key) → (object, meta, exists, err)`: `.ok none` when the
key is absent, `.error` on an unknown annotation without `IgnoreUnknown`. -/
def getFromStore (cfg : Config) (s : RState) (key : String) :
    Except String (Option Meta) :=
  match storeGet s.objects key with
  | none => .ok none
  | some m =>
    if !cfg.ignoreUnknown && unknownAnns cfg m.ann ≠ [] then
      .error "unknown annotation"
    else .ok (some m)

/-- `requireFromStore(key)`: like `getFromStore` but absence is an error. -/
def requireFromStore (cfg : Config) (s : RState) (key : String) :
    Except String Meta :=
  match getFromStore cfg s key with
  | .error e => .error e
  | .ok none => .error "does not exist"
  | .ok (some m) => .ok m

/-! ## Engine primitives -/

/-- `doClearObject(object)`: no-op when the target carries no
`replicated-from-version`; otherwise compose the cleared annotations,
call the adapter `Clear` and write the result through the store.
The returned flag is the Go error result. -/
def doClearObject (cfg : Config) (s : RState) (obj : Meta) : RState × Bool :=
  let s := emit s (.clearOb (metaKey obj))
  if alookup obj.ann (annFromVersion cfg) = none then (s, false)
  else
    let ann1 := aset obj.ann (annAt cfg) cfg.now
    let ann2 := adel (adel ann1 (annFromVersion cfg)) (annOnceVersion cfg)
    let s := emit s (.apiClear (metaKey obj) ann2)
    let (resp, s) := popApi s
    match resp with
    | none => (s, true)
    | some newObj => ({ s with objects := storeUpsert s.objects newObj }, false)

/-- `doDeleteObject(object)`: adapter `Delete` then store removal. -/
def doDeleteObject (cfg : Config) (s : RState) (obj : Meta) : RState × Bool :=
  let s := emit s (.deleteOb (metaKey obj))
  let s := emit s (.apiDelete (metaKey obj))
  let (resp, s) := popApi s
  match resp with
  | none => (s, true)
  | some _ => ({ s with objects := storeDel s.objects (metaKey obj) }, false)

/-- `replicateObject(object, sourceObject)`, the pull primitive. -/
def replicateObject (cfg : Config) (eng : RegexEngine) (s : RState)
    (obj srcObj : Meta) : RState × Bool :=
  let s := emit s (.replicate (metaKey obj) (metaKey srcObj))
  -- make sure replication is allowed
  let (ok, nok, _err) := isReplicationAllowed cfg eng obj srcObj
  if ok then
    -- check if replication is needed
    let (needs, _, _) := needsDataUpdate cfg obj srcObj
    if !needs then (s, true)
    else
      -- build the annotations
      let a1 := aset obj.ann (annAt cfg) cfg.now
      let a2 := aset a1 (annFromVersion cfg) srcObj.rv
      let a3 :=
        match alookup srcObj.ann (annOnceVersion cfg) with
        | some v => aset a2 (annOnceVersion cfg) v
        | none => adel a2 (annOnceVersion cfg)
      -- replicate it
      let s := emit s (.apiUpdate (metaKey obj) a3)
      let (resp, s) := popApi s
      match resp with
      | none => (s, true)
      | some newObj =>
        ({ s with objects := storeUpsert s.objects newObj }, false)
  else if nok then doClearObject cfg s obj
  else (s, true)

/-- The repeated adapter-`Install`-and-write-through block of
`installObject` (`newObject, err := r.Install(...)`; store update on
success). -/
def apiInstallStep (s : RState) (cm : Meta) (hasData : Bool) :
    RState × Bool :=
  let s := emit s (.apiInstall cm hasData)
  let (resp, s) := popApi s
  match resp with
  | none => (s, true)
  | some newObj => ({ s with objects := storeUpsert s.objects newObj }, false)

/-- The final install of `installObject`: a fresh meta carrying all the
push annotations, payload copied from the source. -/
def installWithData (cfg : Config) (s : RState) (tns tname : String)
    (targetMeta : Option Meta) (srcObj : Meta) : RState × Bool :=
  -- create a new meta with all the annotations
  let c1 := aset [] (annAt cfg) cfg.now
  let c2 := aset c1 (annBy cfg) (metaKey srcObj)
  let c3 := aset c2 (annFromVersion cfg) srcObj.rv
  let c4 :=
    match alookup srcObj.ann (annOnceVersion cfg) with
    | some v => aset c3 (annOnceVersion cfg) v
    | none => c3
  let c5 :=
    match alookup srcObj.ann (annAllowed cfg) with
    | some v => aset c4 (annAllowed cfg) v
    | none => c4
  let c6 :=
    match alookup srcObj.ann (annAllowedNs cfg) with
    | some v => aset c5 (annAllowedNs cfg) v
    | none => c5
  let copyMeta : Meta :=
    { ns := tns, name := tname,
      rv := (targetMeta.map (·.rv)).getD "",
      labels := cfg.labels, ann := c6 }
  -- install it with the source data
  apiInstallStep s copyMeta true

/-- The up-to-date branch of the direct push: skip, or refresh only the
`replication-allowed` annotations with the original payload. -/
def installAllowedCopy (cfg : Config) (eng : RegexEngine) (s : RState)
    (tm : Meta) (targetObject : Option Meta) (srcObj : Meta) (once : Bool) :
    RState × Bool :=
  if !once then (s, true)
  else match needsAllowedAnnotsUpdate cfg eng tm srcObj with
    | .error _ => (s, true)
    | .ok false => (s, true)
    | .ok true =>
      -- copy the target but update the replication-allowed annotations
      let b1 :=
        match alookup srcObj.ann (annAllowed cfg) with
        | some v => aset tm.ann (annAllowed cfg) v
        | none => adel tm.ann (annAllowed cfg)
      let b2 :=
        match alookup srcObj.ann (annAllowedNs cfg) with
        | some v => aset b1 (annAllowedNs cfg) v
        | none => adel b1 (annAllowedNs cfg)
      let copyMeta : Meta := { tm with ann := b2 }
      -- install it with the original data
      apiInstallStep s copyMeta targetObject.isSome

/-- The trailing part of `installObject` once the target meta (if any) and
the target split are known. -/
def installObjectResolved (cfg : Config) (eng : RegexEngine) (s : RState)
    (tns tname : String) (targetMeta targetObject : Option Meta)
    (srcObj : Meta) : RState × Bool :=
  -- the data must come from another object
  match resolveAnn srcObj (annFrom cfg) with
  | some source =>
    let proceed :=
      match targetMeta with
      | none => Except.ok true
      | some tm => needsFromAnnotsUpdate cfg tm srcObj
    match proceed with
    | .error _ => (s, true)
    | .ok false => (s, false)
    | .ok true =>
      -- create a new meta with the replicate-from annotations
      let a1 := aset [] (annBy cfg) (metaKey srcObj)
      let a2 := aset a1 (annFrom cfg) source
      let a3 :=
        match alookup srcObj.ann (annOnce cfg) with
        | some v => aset a2 (annOnce cfg) v
        | none => a2
      let copyMeta : Meta :=
        { ns := tns, name := tname,
          rv := (targetMeta.map (·.rv)).getD "",
          labels := cfg.labels, ann := a3 }
      -- install it, but keep the original data
      apiInstallStep s copyMeta targetObject.isSome
  | none =>
    -- the data comes directly from the source
    match targetMeta with
    | some tm =>
      -- a target already replicated from elsewhere goes straight to the
      -- data install; otherwise check whether it is up to date
      if alookup tm.ann (annFrom cfg) ≠ none then
        installWithData cfg s tns tname targetMeta srcObj
      else
        let (needs, once, _) := needsDataUpdate cfg tm srcObj
        if needs then installWithData cfg s tns tname targetMeta srcObj
        else installAllowedCopy cfg eng s tm targetObject srcObj once
    | none => installWithData cfg s tns tname targetMeta srcObj

/-- `installObject(target, targetObject, sourceObject)`, the push
primitive; `targetObject` is `none` when only the target key is given. -/
def installObject (cfg : Config) (eng : RegexEngine) (s : RState)
    (target : String) (targetObject? : Option Meta) (srcObj : Meta) :
    RState × Bool :=
  let s := emit s (.install target targetObject?.isSome (metaKey srcObj))
  match targetObject? with
  | none =>
    match splitN2 target with
    | [tns, tname] =>
      match getFromStore cfg s target with
      | .error _ => (s, true)
      | .ok none =>
        installObjectResolved cfg eng s tns tname none none srcObj
      | .ok (some tm) =>
        -- check that the target was created by replication from the source
        if !isReplicatedBy cfg tm srcObj then (s, true)
        else installObjectResolved cfg eng s tns tname (some tm) (some tm) srcObj
    | _ => (s, true)
  | some tObj =>
    installObjectResolved cfg eng s tObj.ns tObj.name (some tObj) (some tObj) srcObj

/-- `clearObject(key, sourceObject)`: clear a dependent after checking it
still refers to the source; the Bool is the Go `ok` result. -/
def clearObject (cfg : Config) (s : RState) (key : String) (srcObj : Meta) :
    RState × Bool :=
  match requireFromStore cfg s key with
  | .error _ => (s, false)
  | .ok tm =>
    if !annRefersTo tm (annFrom cfg) srcObj then (s, false)
    else ((doClearObject cfg s tm).1, true)

/-- `deleteObject(key, sourceObject)`: delete a target after checking the
`replicated-by` annotation. -/
def deleteObject (cfg : Config) (s : RState) (key : String) (srcObj : Meta) :
    RState × Bool :=
  match requireFromStore cfg s key with
  | .error _ => (s, false)
  | .ok tm =>
    if !isReplicatedBy cfg tm srcObj then (s, false)
    else ((doDeleteObject cfg s tm).1, true)

/-! ## Event handlers -/

/-- Insertion into a sorted string list, for `sort.Strings`. -/
def insSorted (x : String) : List String → List String
  | [] => [x]
  | y :: rest => if x ≤ y then x :: y :: rest else y :: insSorted x rest

/-- `sort.Strings` (the engine only relies on equal elements becoming
adjacent). -/
def sortStrings : List String → List String
  | [] => []
  | x :: rest => insSorted x (sortStrings rest)

/-- The dependent loop of `updateDependents`: skip duplicates (adjacent
after sorting), drop dependents that vanished or re-targeted, replicate
and retain the rest. -/
def updateDependentsLoop (cfg : Config) (eng : RegexEngine) (srcObj : Meta)
    (key : String) :
    List String → String → List String → RState → List String × RState
  | [], _, acc, s => (acc, s)
  | dk :: rest, prev, acc, s =>
    if prev = dk then updateDependentsLoop cfg eng srcObj key rest prev acc s
    else
      match requireFromStore cfg s dk with
      | .error _ => updateDependentsLoop cfg eng srcObj key rest dk acc s
      | .ok tm =>
        if resolveAnn tm (annFrom cfg) ≠ some key then
          updateDependentsLoop cfg eng srcObj key rest dk acc s
        else
          let s := (replicateObject cfg eng s tm srcObj).1
          updateDependentsLoop cfg eng srcObj key rest dk (acc ++ [dk]) s

/-- `updateDependents(object, replicas)`. -/
def updateDependents (cfg : Config) (eng : RegexEngine) (s : RState)
    (obj : Meta) (replicas : List String) : RState :=
  let key := metaKey obj
  let (upd, s) :=
    updateDependentsLoop cfg eng obj key (sortStrings replicas) "" [] s
  if upd ≠ [] then { s with targetsFrom := aset s.targetsFrom key upd }
  else { s with targetsFrom := adel s.targetsFrom key }

/-- Step 1 of `ObjectDeleted`: delete every target of the source. -/
def delTargetsLoop (cfg : Config) (srcObj : Meta) :
    List String → RState → RState
  | [], s => s
  | t :: rest, s => delTargetsLoop cfg srcObj rest (deleteObject cfg s t srcObj).1

/-- Step 3 of `ObjectDeleted`: clear the dependents, retaining those that
still referred to the source. -/
def objectDeletedClearLoop (cfg : Config) (srcObj : Meta) :
    List String → String → List String → RState → List String × RState
  | [], _, acc, s => (acc, s)
  | dk :: rest, prev, acc, s =>
    if prev = dk then objectDeletedClearLoop cfg srcObj rest prev acc s
    else
      let (s, ok) := clearObject cfg s dk srcObj
      if ok then objectDeletedClearLoop cfg srcObj rest dk (acc ++ [dk]) s
      else objectDeletedClearLoop cfg srcObj rest dk acc s

/-- Steps 1–3 of `ObjectDeleted`: delete pushed targets, drop the graph
entries of the deleted key, clear the pull dependents. -/
def preHandoff (cfg : Config) (s : RState) (obj : Meta) : RState :=
  let key := metaKey obj
  -- delete targets of replicate-to annotations
  let s :=
    match alookup s.targetsTo key with
    | some ts => delTargetsLoop cfg obj ts s
    | none => s
  let s :=
    { s with targetsTo := adel s.targetsTo key,
             watchedTargets := adel s.watchedTargets key,
             watchedPatterns := adel s.watchedPatterns key }
  -- clear targets of replicate-from annotations
  match alookup s.targetsFrom key with
  | none => s
  | some replicas =>
    let (upd, s) :=
      objectDeletedClearLoop cfg obj (sortStrings replicas) "" [] s
    if upd ≠ [] then { s with targetsFrom := aset s.targetsFrom key upd }
    else { s with targetsFrom := adel s.targetsFrom key }

/-- The sources waiting to push into the deleted key: named in
`watchedTargets` or matching in `watchedPatterns` (deduplicated, in
first-insertion order). -/
def todoDel (eng : RegexEngine) (key : String) (meta : Meta)
    (wT : List (String × List String))
    (wP : List (String × List TargetPattern)) : List String :=
  let t1 := wT.foldl
    (fun acc e => if e.2.contains key then insertUniq acc e.1 else acc) []
  wP.foldl
    (fun acc e =>
      if acc.contains e.1 then acc
      else if e.2.any (fun p => patMatchMeta eng p meta) then
        insertUniq acc e.1
      else acc) t1

/-- Step 4 of `ObjectDeleted`: install the vacated key for the first
source that still wants it; clean watched entries of vanished sources. -/
def handOffLoop (cfg : Config) (eng : RegexEngine) (key : String)
    (meta : Meta) : List String → RState → RState
  | [], s => s
  | src :: rest, s =>
    match getFromStore cfg s src with
    | .error _ => handOffLoop cfg eng key meta rest s
    | .ok none =>
      handOffLoop cfg eng key meta rest
        { s with watchedTargets := adel s.watchedTargets src,
                 watchedPatterns := adel s.watchedPatterns src }
    | .ok (some sm) =>
      match isReplicatedTo cfg eng (lookupD s.watchedPatterns src) sm meta with
      | .ok true => (installObject cfg eng s key none sm).1
      | _ => handOffLoop cfg eng key meta rest s

/-- `ObjectDeleted(object)`. -/
def objectDeleted (cfg : Config) (eng : RegexEngine) (s : RState)
    (obj : Meta) : RState :=
  let key := metaKey obj
  let s1 := preHandoff cfg s obj
  let todo := todoDel eng key obj s1.watchedTargets s1.watchedPatterns
  handOffLoop cfg eng key obj todo s1

/-- The install loop of `replicateToNamespace`, extending the current
`targetsTo` slice. -/
def rtnInstallLoop (cfg : Config) (eng : RegexEngine) (obj : Meta) :
    List String → List String → RState → List String × RState
  | [], cur, s => (cur, s)
  | t :: rest, cur, s =>
    let s := (installObject cfg eng s t none obj).1
    rtnInstallLoop cfg eng obj rest (cur ++ [t]) s

/-- `replicateToNamespace(object, namespace)`. -/
def replicateToNamespace (cfg : Config) (eng : RegexEngine) (s : RState)
    (obj : Meta) (nsName : String) : RState :=
  let key := metaKey obj
  -- the replicated-by annotation has priority
  if alookup obj.ann (annBy cfg) ≠ none then s
  else
    match getReplicationTargets cfg eng (lookupD s.watchedPatterns key) obj with
    | .error _ => s
    | .ok none => s
    | .ok (some (ts, ps)) =>
      -- find the targets matching the namespace
      let e1 := ts.foldl
        (fun acc t => if nsName = nsPart t then insertUniq acc t else acc) []
      let e2 := ps.foldl
        (fun acc p =>
          let t := patMatchNs eng p nsName
          if t ≠ "" then insertUniq acc t else acc) e1
      -- cannot target itself
      let existing := e2.filter (· ≠ key)
      if existing = [] then s
      else
        let current := lookupD s.targetsTo key
        let (current, s) := rtnInstallLoop cfg eng obj existing current s
        { s with targetsTo := aset s.targetsTo key current }

/-- The sources interested in a new namespace, from `watchedTargets`
(literal namespace part) and `watchedPatterns` (pattern match). -/
def todoNs (eng : RegexEngine) (nsName : String)
    (wT : List (String × List String))
    (wP : List (String × List TargetPattern)) : List String :=
  let t1 := wT.foldl
    (fun acc e =>
      if e.2.any (fun t => nsName = nsPart t) then insertUniq acc e.1
      else acc) []
  wP.foldl
    (fun acc e =>
      if acc.contains e.1 then acc
      else if e.2.any (fun p => patMatchNs eng p nsName ≠ "") then
        insertUniq acc e.1
      else acc) t1

/-- The source loop of `NamespaceAdded`. -/
def nsAddLoop (cfg : Config) (eng : RegexEngine) (nsName : String) :
    List String → RState → RState
  | [], s => s
  | src :: rest, s =>
    match getFromStore cfg s src with
    | .error _ => nsAddLoop cfg eng nsName rest s
    | .ok none =>
      nsAddLoop cfg eng nsName rest
        { s with watchedTargets := adel s.watchedTargets src,
                 watchedPatterns := adel s.watchedPatterns src }
    | .ok (some sm) =>
      nsAddLoop cfg eng nsName rest (replicateToNamespace cfg eng s sm nsName)

/-- `NamespaceAdded(namespace)`. -/
def namespaceAdded (cfg : Config) (eng : RegexEngine) (s : RState)
    (nsName : String) : RState :=
  nsAddLoop cfg eng nsName (todoNs eng nsName s.watchedTargets s.watchedPatterns) s

/-- The differential target-cleanup loop of `ObjectAdded` (over the sorted
previous targets, skipping duplicates and still-valid targets). -/
def oldCleanLoop (cfg : Config) (eng : RegexEngine) (obj : Meta)
    (ts : List String) (ps : List TargetPattern) :
    List String → String → RState → RState
  | [], _, s => s
  | t :: rest, prev, s =>
    if t = prev then oldCleanLoop cfg eng obj ts ps rest prev s
    else if ts.contains t then oldCleanLoop cfg eng obj ts ps rest t s
    else if ps.any (fun p => patMatchString eng p t) then
      oldCleanLoop cfg eng obj ts ps rest t s
    else
      let s := (deleteObject cfg s t obj).1
      oldCleanLoop cfg eng obj ts ps rest t s

/-- One pattern's expansion in the push section: append targets unseen so
far. -/
def pushPatOne : List String → List String → List String →
    List String × List String
  | [], seen, acc => (seen, acc)
  | t :: rest, seen, acc =>
    if seen.contains t then pushPatOne rest seen acc
    else pushPatOne rest (seen ++ [t]) (acc ++ [t])

/-- Pattern expansion over the known namespaces in the push section. -/
def pushPatLoop (eng : RegexEngine) (nss : List String) :
    List TargetPattern → List String → List String →
    List String × List String
  | [], seen, acc => (seen, acc)
  | p :: rest, seen, acc =>
    let (seen, acc) := pushPatOne (patTargets eng p nss) seen acc
    pushPatLoop eng nss rest seen acc

/-- The install loop of the push section. -/
def pushInstallLoop (cfg : Config) (eng : RegexEngine) (obj : Meta) :
    List String → RState → RState
  | [], s => s
  | t :: rest, s =>
    pushInstallLoop cfg eng obj rest (installObject cfg eng s t none obj).1

/-- The push/pull tail of `ObjectAdded`: `tsps` holds the (possibly reset)
replication targets, `meta` the (possibly reloaded) object. -/
def objectAddedTail (cfg : Config) (eng : RegexEngine) (s : RState)
    (meta : Meta) (tsps : Option (List String × List TargetPattern)) :
    RState :=
  let key := metaKey meta
  match tsps with
  | some (ts, ps) =>
    -- push semantics: filter the literals by namespace existence
    let existing1 := ts.filter (fun t => s.namespaces.contains (nsPart t))
    let existing :=
      if ps ≠ [] then
        (pushPatLoop eng s.namespaces ps ([key] ++ existing1) existing1).2
      else existing1
    let s :=
      if ts ≠ [] then
        { s with watchedTargets := aset s.watchedTargets key ts }
      else s
    let s :=
      if ps ≠ [] then
        { s with watchedPatterns := aset s.watchedPatterns key ps }
      else s
    if existing ≠ [] then
      let s := { s with targetsTo := aset s.targetsTo key existing }
      pushInstallLoop cfg eng meta existing s
    else s
  | none =>
    -- pull semantics
    match resolveAnn meta (annFrom cfg) with
    | none => s
    | some val =>
      let s := emit s (.pullPass key)
      let s :=
        { s with
            targetsFrom :=
              aset s.targetsFrom val (lookupD s.targetsFrom val ++ [key]) }
      match getFromStore cfg s val with
      | .error _ => s
      | .ok none => (doClearObject cfg s meta).1
      | .ok (some srcObj) => (replicateObject cfg eng s meta srcObj).1

/-- `ObjectAdded(object)`. -/
def objectAdded (cfg : Config) (eng : RegexEngine) (s : RState)
    (obj : Meta) : RState :=
  let key := metaKey obj
  -- look for unknown annotations
  if unknownAnns cfg obj.ann ≠ [] && !cfg.ignoreUnknown then s
  else
    -- get replication targets
    match getReplicationTargets cfg eng (lookupD s.watchedPatterns key) obj with
    | .error _ => s
    | .ok tsps =>
      let ts0 := (tsps.map (·.1)).getD []
      let ps0 := (tsps.map (·.2)).getD []
      -- differential target cleanup
      let s :=
        match alookup s.targetsTo key with
        | none => s
        | some oldTargets =>
          oldCleanLoop cfg eng obj ts0 ps0 (sortStrings oldTargets) "" s
      let s :=
        { s with targetsTo := adel s.targetsTo key,
                 watchedTargets := adel s.watchedTargets key,
                 watchedPatterns := adel s.watchedPatterns key }
      -- dependents refresh
      let s :=
        match alookup s.targetsFrom key with
        | none => s
        | some replicas => updateDependents cfg eng s obj replicas
      -- push-created re-entry
      match alookup obj.ann (annBy cfg) with
      | some val =>
        match getFromStore cfg s val with
        | .error _ => s
        | .ok none => (doDeleteObject cfg s obj).1
        | .ok (some srcMeta) =>
          match isReplicatedTo cfg eng (lookupD s.watchedPatterns val)
              srcMeta obj with
          | .error _ => s
          | .ok false => (doDeleteObject cfg s obj).1
          | .ok true =>
            let (s, err) := installObject cfg eng s "" (some obj) srcMeta
            if err then s
            else
              match requireFromStore cfg s key with
              | .error _ => s
              | .ok m2 => objectAddedTail cfg eng s m2 none
      | none => objectAddedTail cfg eng s obj tsps

/-! ## Events -/

/-- An informer event: the informer writes its own store before
dispatching the handler. -/
inductive Event where
  | objectAdded (m : Meta)
  | objectDeleted (m : Meta)
  | namespaceAdded (ns : String)
  deriving Repr

/-- One informer dispatch: store write-through then handler. -/
def stepEvent (cfg : Config) (eng : RegexEngine) (s : RState) :
    Event → RState
  | .objectAdded m =>
    objectAdded cfg eng { s with objects := storeUpsert s.objects m } m
  | .objectDeleted m =>
    objectDeleted cfg eng
      { s with objects := storeDel s.objects (metaKey m) } m
  | .namespaceAdded ns =>
    namespaceAdded cfg eng
      { s with namespaces := insertUniq s.namespaces ns } ns

/-- Run a sequence of informer events. -/
def run (cfg : Config) (eng : RegexEngine) (s : RState)
    (evs : List Event) : RState :=
  evs.foldl (stepEvent cfg eng) s

/-! ## Helper lemmas on the map and store operations -/

theorem alookup_aset_self {α : Type} (l : List (String × α)) (k : String)
    (v : α) : alookup (aset l k v) k = some v := by
  induction l with
  | nil => simp [aset, alookup]
  | cons p rest ih =>
    by_cases h : p.1 = k <;> simp [aset, alookup, h, ih]

theorem alookup_aset_ne {α : Type} (l : List (String × α)) {k k' : String}
    (v : α) (h : k' ≠ k) : alookup (aset l k v) k' = alookup l k' := by
  have h' : k ≠ k' := Ne.symm h
  induction l with
  | nil => simp [aset, alookup, h']
  | cons p rest ih =>
    obtain ⟨k0, w⟩ := p
    by_cases hp : k0 = k
    · subst hp
      simp [aset, alookup, h']
    · simp only [aset, if_neg hp, alookup]
      by_cases hp' : k0 = k' <;> simp [hp', ih]

theorem alookup_adel_self {α : Type} (l : List (String × α)) (k : String) :
    alookup (adel l k) k = none := by
  induction l with
  | nil => simp [adel, alookup]
  | cons p rest ih =>
    obtain ⟨k0, w⟩ := p
    by_cases h : k0 = k <;> simp [adel, alookup, h, ih]

theorem alookup_adel_ne {α : Type} (l : List (String × α)) {k k' : String}
    (h : k' ≠ k) : alookup (adel l k) k' = alookup l k' := by
  induction l with
  | nil => simp [adel, alookup]
  | cons p rest ih =>
    obtain ⟨k0, w⟩ := p
    by_cases hp : k0 = k
    · subst hp
      simp [adel, alookup, Ne.symm h, ih]
    · simp only [adel, if_neg hp, alookup]
      by_cases hp' : k0 = k' <;> simp [hp', ih]

/-- The self-reference invariant of one graph map. -/
def InvMap (mp : List (String × List String)) : Prop :=
  ∀ k, k ∉ lookupD mp k

theorem invMap_aset {mp : List (String × List String)} {k : String}
    {v : List String} (h : InvMap mp) (hk : k ∉ v) : InvMap (aset mp k v) := by
  intro k'
  by_cases hk' : k' = k
  · subst hk'
    simp [lookupD, alookup_aset_self, hk]
  · simp [lookupD, alookup_aset_ne _ _ hk']
    exact h k'

theorem invMap_adel {mp : List (String × List String)} {k : String}
    (h : InvMap mp) : InvMap (adel mp k) := by
  intro k'
  by_cases hk' : k' = k
  · subst hk'
    simp [lookupD, alookup_adel_self]
  · simp [lookupD, alookup_adel_ne _ hk']
    exact h k'

theorem mem_insertUniq {l : List String} {x y : String}
    (h : y ∈ insertUniq l x) : y ∈ l ∨ y = x := by
  by_cases hx : x ∈ l
  · simp [insertUniq, hx] at h
    exact .inl h
  · simp [insertUniq, hx] at h
    rcases h with h | h
    · exact .inl h
    · exact .inr h

theorem nodup_insertUniq {l : List String} (h : l.Nodup) (x : String) :
    (insertUniq l x).Nodup := by
  by_cases hx : x ∈ l
  · simpa [insertUniq, hx] using h
  · rw [insertUniq, if_neg hx]
    refine List.Nodup.append h (List.nodup_singleton x) ?_
    intro a ha hb
    simp at hb
    subst hb
    exact hx ha

theorem mem_insSorted {l : List String} {x y : String} :
    y ∈ insSorted x l ↔ y = x ∨ y ∈ l := by
  induction l with
  | nil => simp [insSorted]
  | cons z rest ih =>
    by_cases h : x ≤ z
    · simp only [insSorted, if_pos h, List.mem_cons]
    · simp only [insSorted, if_neg h, List.mem_cons, ih]
      tauto

theorem mem_sortStrings {l : List String} {y : String} :
    y ∈ sortStrings l ↔ y ∈ l := by
  induction l with
  | nil => simp [sortStrings]
  | cons x rest ih => simp [sortStrings, mem_insSorted, ih]

theorem storeGet_mem {objs : List Meta} {key : String} {m : Meta}
    (h : storeGet objs key = some m) : m ∈ objs ∧ metaKey m = key := by
  have hm := List.mem_of_find?_eq_some h
  have hp := List.find?_some h
  simp at hp
  exact ⟨hm, hp⟩

theorem mem_storeUpsert {objs : List Meta} {m x : Meta}
    (h : x ∈ storeUpsert objs m) : x = m ∨ x ∈ objs := by
  induction objs with
  | nil => simpa [storeUpsert] using h
  | cons y rest ih =>
    by_cases hy : metaKey y = metaKey m
    · simp [storeUpsert, hy] at h
      tauto
    · simp [storeUpsert, hy] at h
      rcases h with h | h
      · exact .inr (by simp [h])
      · rcases ih h with h' | h'
        · exact .inl h'
        · exact .inr (by simp [h'])

theorem mem_storeDel {objs : List Meta} {key : String} {x : Meta}
    (h : x ∈ storeDel objs key) : x ∈ objs :=
  List.mem_of_mem_filter h

/-! ## C9: annotation prefix round trip -/

/-- C9: `PrefixAnnotations(p)` sets every recognized annotation key to
`p + suffix` (with a `/` appended to `p` first when `p` is non-empty and
does not already end in `/`), and `PrefixAnnotations("")` afterwards
restores every key to its baseline unprefixed suffix. -/
theorem prefixAnnRoundTrip (p : String) :
    applyAnnPfx "" (applyAnnPfx p regInit) = regInit ∧
    (p ≠ "" → p.toList.getLast? ≠ some '/' → normPfx p = p ++ "/") ∧
    ∀ suf cur, (suf, cur) ∈ applyAnnPfx p regInit → cur = normPfx p ++ suf := by
  refine ⟨?_, ?_, ?_⟩
  · simp only [applyAnnPfx, regInit, baseSuffixes, List.map_map, List.map,
      Function.comp]
    decide
  · intro h1 h2
    have hne : p.isEmpty = false := by
      by_contra hc
      simp at hc
      exact h1 ((String.isEmpty_iff p).mp hc)
    have h3 : (p.toList.getLast? == some '/') = false := by
      rw [beq_eq_false_iff_ne]
      exact h2
    simp [normPfx, hne, h3]
    intro hcontra
    exact absurd hcontra h2
  · intro suf cur h
    obtain ⟨e, -, he⟩ := List.mem_map.mp h
    injection he with ha hb
    subst ha
    exact hb.symm

/-! ## C3: default deny in isReplicationAllowed -/

/-- C3: with `AllowAll=false`, a source carrying neither
`replication-allowed` nor `replication-allowed-namespaces` is always
refused: `isReplicationAllowed` returns `allowed=false`,
`disallowed=true` and a non-nil error. -/
theorem defaultDeny (cfg : Config) (eng : RegexEngine) (target source : Meta)
    (hAll : cfg.allowAll = false)
    (h1 : alookup source.ann (annAllowed cfg) = none)
    (h2 : alookup source.ann (annAllowedNs cfg) = none) :
    (isReplicationAllowed cfg eng target source).1 = false ∧
    (isReplicationAllowed cfg eng target source).2.1 = true ∧
    (isReplicationAllowed cfg eng target source).2.2.isSome := by
  simp [isReplicationAllowed, hAll, h1, h2]

/-- Witness for C3 at a concrete annotation-free source. -/
theorem defaultDenyWitness :
    (isReplicationAllowed ⟨false, false, [], "", "now"⟩
        ⟨fun _ => true, fun _ _ => true⟩
        ⟨"a", "t", "1", [], []⟩ ⟨"b", "s", "2", [("other", "x")], []⟩).1
      = false :=
  (defaultDeny ⟨false, false, [], "", "now"⟩ ⟨fun _ => true, fun _ _ => true⟩
    ⟨"a", "t", "1", [], []⟩ ⟨"b", "s", "2", [("other", "x")], []⟩
    rfl (by decide) (by decide)).1

/-- Witness for C9 at the concrete prefix `"pfx"`. -/
theorem prefixAnnRoundTripWitness :
    applyAnnPfx "" (applyAnnPfx "pfx" regInit) = regInit ∧
    normPfx "pfx" = "pfx" ++ "/" ∧
    "pfx/replicate-to" = normPfx "pfx" ++ "replicate-to" :=
  ⟨(prefixAnnRoundTrip "pfx").1,
   (prefixAnnRoundTrip "pfx").2.1 (by decide) (by decide),
   (prefixAnnRoundTrip "pfx").2.2 "replicate-to" "pfx/replicate-to" (by decide)⟩

/-! ## C2: needsDataUpdate -/

/-- A meta carries `replicate-once=true` (its annotation parses to the
boolean true). -/
def onceTrue (cfg : Config) (m : Meta) : Prop :=
  ∃ v, alookup m.ann (annOnce cfg) = some v ∧ goParseBool v = some true

/-- C2 counterexample: the source carries `replicate-once=true` and no
`replicate-once-version`, the target has a stale
`replicated-from-version` but an ill-formed `replicate-once`; the claim
demands `(false, true, error)`, yet `needsDataUpdate` reports the parse
error as `(false, false, error)`. -/
theorem needsDataUpdateClaimFalse :
    let cfg : Config := ⟨false, false, [], "", "now"⟩
    let target : Meta :=
      ⟨"a", "t", "5",
        [("replicated-from-version", "2"), ("replicate-once", "garbage")], []⟩
    let source : Meta := ⟨"a", "s", "1", [("replicate-once", "true")], []⟩
    -- premises of the claim's replicate-once clause
    (alookup target.ann (annFromVersion cfg) = some "2" ∧ "2" ≠ source.rv ∧
     onceTrue cfg source ∧
     alookup source.ann (annOnceVersion cfg) = none) ∧
    -- the claimed result (false, true, _) does not hold: once = false
    (needsDataUpdate cfg target source).2.1 = false := by
  exact ⟨⟨rfl, by decide, ⟨"true", rfl, rfl⟩, rfl⟩, rfl⟩

/-- C2 amended: the claimed case analysis of `needsDataUpdate` holds
provided every `replicate-once` annotation present on either side parses
as a boolean (the code otherwise reports the parse error as
`(false, false, err)`). -/
theorem needsDataUpdateSpec (cfg : Config) (target source : Meta)
    (hT : ∀ v, alookup target.ann (annOnce cfg) = some v → (goParseBool v).isSome)
    (hS : ∀ v, alookup source.ann (annOnce cfg) = some v → (goParseBool v).isSome) :
    (alookup target.ann (annFromVersion cfg) = none →
      needsDataUpdate cfg target source = (true, false, none)) ∧
    (∀ tv, alookup target.ann (annFromVersion cfg) = some tv →
      tv = source.rv →
      (needsDataUpdate cfg target source).1 = false ∧
      (needsDataUpdate cfg target source).2.1 = false ∧
      (needsDataUpdate cfg target source).2.2.isSome) ∧
    (∀ tv, alookup target.ann (annFromVersion cfg) = some tv →
      tv ≠ source.rv → (onceTrue cfg source ∨ onceTrue cfg target) →
      (alookup source.ann (annOnceVersion cfg) = none →
        (needsDataUpdate cfg target source).1 = false ∧
        (needsDataUpdate cfg target source).2.1 = true ∧
        (needsDataUpdate cfg target source).2.2.isSome) ∧
      (∀ sv, alookup source.ann (annOnceVersion cfg) = some sv →
        alookup target.ann (annOnceVersion cfg) = some sv →
        (needsDataUpdate cfg target source).1 = false ∧
        (needsDataUpdate cfg target source).2.1 = true ∧
        (needsDataUpdate cfg target source).2.2.isSome) ∧
      (∀ sv, alookup source.ann (annOnceVersion cfg) = some sv →
        alookup target.ann (annOnceVersion cfg) ≠ some sv →
        needsDataUpdate cfg target source = (true, false, none))) := by
  refine ⟨?_, ?_, ?_⟩
  · intro h
    simp [needsDataUpdate, h]
  · intro tv h he
    subst he
    simp [needsDataUpdate, h]
  · intro tv h hne hOnce
    have hsrc : ∀ v, alookup source.ann (annOnce cfg) = some v →
        ∃ b, goParseBool v = some b := by
      intro v hv
      rcases ho : goParseBool v with _ | b
      · exact absurd (hS v hv) (by simp [ho])
      · exact ⟨b, rfl⟩
    have htgt : ∀ v, alookup target.ann (annOnce cfg) = some v →
        ∃ b, goParseBool v = some b := by
      intro v hv
      rcases ho : goParseBool v with _ | b
      · exact absurd (hT v hv) (by simp [ho])
      · exact ⟨b, rfl⟩
    rcases hso : alookup source.ann (annOnce cfg) with _ | sv0 <;>
      rcases hto : alookup target.ann (annOnce cfg) with _ | tv0
    · rcases hOnce with ⟨v, hv, _⟩ | ⟨v, hv, _⟩ <;> simp_all
    · obtain ⟨tb, htb⟩ := htgt tv0 hto
      have htbT : tb = true := by
        rcases hOnce with ⟨v, hv, hb⟩ | ⟨v, hv, hb⟩
        · rw [hso] at hv; exact absurd hv (by simp)
        · rw [hto] at hv
          injection hv with hv
          subst hv
          rw [htb] at hb
          exact Option.some.inj hb
      subst htbT
      refine ⟨?_, ?_, ?_⟩
      · intro hsv
        simp [needsDataUpdate, h, hne, hso, hto, htb, hsv]
      · intro sv hsv hts
        simp [needsDataUpdate, h, hne, hso, hto, htb, hsv, hts]
      · intro sv hsv hts
        rcases htv : alookup target.ann (annOnceVersion cfg) with _ | tvv
        · simp [needsDataUpdate, h, hne, hso, hto, htb, hsv, htv]
        · have hnv : ¬sv = tvv := fun he => hts (by rw [htv, he])
          simp [needsDataUpdate, h, hne, hso, hto, htb, hsv, htv, hnv]
    · obtain ⟨sb, hsb⟩ := hsrc sv0 hso
      have hsbT : sb = true := by
        rcases hOnce with ⟨v, hv, hb⟩ | ⟨v, hv, hb⟩
        · rw [hso] at hv
          injection hv with hv
          subst hv
          rw [hsb] at hb
          exact Option.some.inj hb
        · rw [hto] at hv; exact absurd hv (by simp)
      subst hsbT
      refine ⟨?_, ?_, ?_⟩
      · intro hsv
        simp [needsDataUpdate, h, hne, hso, hto, hsb, hsv]
      · intro sv hsv hts
        simp [needsDataUpdate, h, hne, hso, hto, hsb, hsv, hts]
      · intro sv hsv hts
        rcases htv : alookup target.ann (annOnceVersion cfg) with _ | tvv
        · simp [needsDataUpdate, h, hne, hso, hto, hsb, hsv, htv]
        · have hnv : ¬sv = tvv := fun he => hts (by rw [htv, he])
          simp [needsDataUpdate, h, hne, hso, hto, hsb, hsv, htv, hnv]
    · obtain ⟨sb, hsb⟩ := hsrc sv0 hso
      obtain ⟨tb, htb⟩ := htgt tv0 hto
      have hOnceB : (sb || tb) = true := by
        rcases hOnce with ⟨v, hv, hb⟩ | ⟨v, hv, hb⟩
        · rw [hso] at hv
          injection hv with hv
          subst hv
          rw [hsb] at hb
          injection hb with hb
          simp [hb.symm]
        · rw [hto] at hv
          injection hv with hv
          subst hv
          rw [htb] at hb
          injection hb with hb
          simp [hb.symm]
      refine ⟨?_, ?_, ?_⟩
      · intro hsv
        simp [needsDataUpdate, h, hne, hso, hto, hsb, htb, hOnceB, hsv]
      · intro sv hsv hts
        simp [needsDataUpdate, h, hne, hso, hto, hsb, htb, hOnceB, hsv, hts]
      · intro sv hsv hts
        rcases htv : alookup target.ann (annOnceVersion cfg) with _ | tvv
        · simp [needsDataUpdate, h, hne, hso, hto, hsb, htb, hOnceB, hsv, htv]
        · have hnv : ¬sv = tvv := fun he => hts (by rw [htv, he])
          simp [needsDataUpdate, h, hne, hso, hto, hsb, htb, hOnceB, hsv, htv,
            hnv]

end KR

namespace KR

/-- Witness for C2 at a target lacking `replicated-from-version`. -/
theorem needsDataUpdateSpecWitness :
    needsDataUpdate ⟨false, false, [], "", "now"⟩ ⟨"a", "t", "1", [], []⟩
      ⟨"b", "s", "2", [], []⟩ = (true, false, none) :=
  (needsDataUpdateSpec ⟨false, false, [], "", "now"⟩ ⟨"a", "t", "1", [], []⟩
    ⟨"b", "s", "2", [], []⟩
    (by intro v hv; simp [alookup] at hv)
    (by intro v hv; simp [alookup] at hv)).1 rfl

/-! ## C5: needsFromAnnotationsUpdate -/

/-- C5: when `needsFromAnnotationsUpdate` succeeds, the result is true
iff the source's resolved `replicate-from` differs from the target's raw
`replicate-from` annotation or the `replicate-once` annotation strings
differ (presence-sensitive); an invalid or self-referencing source
`replicate-from` path, and an unparseable source `replicate-once`, give
errors. -/
theorem needsFromAnnotsUpdateSpec (cfg : Config) (target source : Meta) :
    (∀ b res, needsFromAnnotsUpdate cfg target source = .ok b →
      resolveAnn source (annFrom cfg) = some res →
      (b = true ↔
        alookup target.ann (annFrom cfg) ≠ some res ∨
        alookup target.ann (annOnce cfg) ≠ alookup source.ann (annOnce cfg))) ∧
    (∀ res, resolveAnn source (annFrom cfg) = some res →
      (validPath res = false ∨ res = metaKey source) →
      ∃ e, needsFromAnnotsUpdate cfg target source = .error e) ∧
    (∀ v, alookup source.ann (annOnce cfg) = some v → goParseBool v = none →
      ∃ e, needsFromAnnotsUpdate cfg target source = .error e) := by
  refine ⟨?_, ?_, ?_⟩
  · intro b res hok hres
    rcases hvp : validPath res with _ | _
    · rw [needsFromAnnotsUpdate, hres] at hok
      simp [hvp] at hok
    · by_cases hself : res = metaKey source
      · rw [needsFromAnnotsUpdate, hres] at hok
        simp [hvp, hself] at hok
      · rcases hso : alookup source.ann (annOnce cfg) with _ | sv
        · rw [needsFromAnnotsUpdate, hres] at hok
          simp only [hvp, hself, hso, Bool.false_eq_true, if_false,
            if_neg, Bool.not_true] at hok
          rcases hto : alookup target.ann (annOnce cfg) with _ | tv <;>
            rcases htf : alookup target.ann (annFrom cfg) with _ | tf <;>
            simp only [hto, htf] at hok <;>
            (try simp at hok) <;>
            simp [← hok, hto, htf] <;>
            tauto
        · rcases hpb : goParseBool sv with _ | pb
          · rw [needsFromAnnotsUpdate, hres] at hok
            simp [hvp, hself, hso, hpb] at hok
          · rw [needsFromAnnotsUpdate, hres] at hok
            simp only [hvp, hself, hso, hpb] at hok
            simp at hok
            rcases hto : alookup target.ann (annOnce cfg) with _ | tv <;>
              rcases htf : alookup target.ann (annFrom cfg) with _ | tf <;>
              simp only [hto, htf] at hok <;>
              (try simp at hok) <;>
              simp [← hok, hto, htf] <;>
              tauto
  · intro res hres hbad
    rw [needsFromAnnotsUpdate, hres]
    rcases hbad with hbad | hbad
    · simp [hbad]
    · simp [hbad]
  · intro v hv hpb
    rw [needsFromAnnotsUpdate]
    rcases hres : resolveAnn source (annFrom cfg) with _ | res
    · exact ⟨_, rfl⟩
    · rcases hvp : validPath res with _ | _
      · simp [hvp]
      · by_cases hself : res = metaKey source
        · simp [hvp, hself]
        · simp [hvp, hself, hv, hpb]

end KR

namespace KR

/-- Witness for C5: a fresh target needs the from-annotations update. -/
theorem needsFromAnnotsUpdateSpecWitness :
    alookup (⟨"a", "t", "1", [], []⟩ : Meta).ann
        (annFrom ⟨false, false, [], "", "now"⟩) ≠ some "x/y" ∨
    alookup (⟨"a", "t", "1", [], []⟩ : Meta).ann
        (annOnce ⟨false, false, [], "", "now"⟩) ≠
      alookup (⟨"s", "src", "2", [("replicate-from", "x/y")], []⟩ : Meta).ann
        (annOnce ⟨false, false, [], "", "now"⟩) :=
  ((needsFromAnnotsUpdateSpec ⟨false, false, [], "", "now"⟩
      ⟨"a", "t", "1", [], []⟩
      ⟨"s", "src", "2", [("replicate-from", "x/y")], []⟩).1
    true "x/y" rfl rfl).mp rfl

/-! ## C4: getReplicationTargets hygiene -/

/-- Loop invariant for the literal-target construction: the targets are
duplicate-free, contained in `seen`, and the source's own key is in
`seen` but never among the targets. -/
def GrtInv (key : String) (st : GrtSt) : Prop :=
  st.targets.Nodup ∧ (∀ t ∈ st.targets, t ∈ st.seen) ∧
  key ∈ st.seen ∧ key ∉ st.targets

theorem grtLitNames_inv {key ns : String} {names : List String} {st : GrtSt}
    (h : GrtInv key st) : GrtInv key (grtLitNames ns names st) := by
  induction names generalizing st with
  | nil => simpa [grtLitNames] using h
  | cons n rest ih =>
    obtain ⟨h1, h2, h3, h4⟩ := h
    rw [grtLitNames]
    by_cases hseen : ns ++ "/" ++ n ∈ st.seen
    · rw [if_pos hseen]
      exact ih ⟨h1, h2, h3, h4⟩
    · rw [if_neg hseen]
      refine ih ⟨?_, ?_, ?_, ?_⟩
      · refine List.Nodup.append h1 (List.nodup_singleton _) ?_
        intro a ha hb
        simp at hb
        subst hb
        exact hseen (h2 _ ha)
      · intro t ht
        rcases List.mem_append.mp ht with ht | ht
        · exact List.mem_append.mpr (.inl (h2 t ht))
        · simp at ht
          subst ht
          exact List.mem_append.mpr (.inr (by simp))
      · exact List.mem_append.mpr (.inl h3)
      · intro hk
        rcases List.mem_append.mp hk with hk | hk
        · exact h4 hk
        · simp at hk
          subst hk
          exact hseen h3

theorem grtPatNames_inv {key nsRaw aPat : String} {names : List String}
    {st : GrtSt} (h : GrtInv key st) :
    GrtInv key (grtPatNames nsRaw aPat names st) := by
  induction names generalizing st with
  | nil => simpa [grtPatNames] using h
  | cons n rest ih =>
    obtain ⟨h1, h2, h3, h4⟩ := h
    rw [grtPatNames]
    by_cases hseen : nsRaw ++ "/" ++ n ∈ st.seen
    · rw [if_pos hseen]
      exact ih ⟨h1, h2, h3, h4⟩
    · rw [if_neg hseen]
      refine ih ⟨h1, ?_, ?_, h4⟩
      · intro t ht
        exact List.mem_append.mpr (.inl (h2 t ht))
      · exact List.mem_append.mpr (.inl h3)

theorem grtNsLoop_inv {eng : RegexEngine} {key : String}
    {names l : List String} {st st' : GrtSt}
    (h : GrtInv key st) (hrun : grtNsLoop eng names l st = .ok st') :
    GrtInv key st' := by
  induction l generalizing st with
  | nil =>
    rw [grtNsLoop] at hrun
    cases hrun
    exact h
  | cons ns rest ih =>
    rw [grtNsLoop] at hrun
    by_cases hv : validName ns = true
    · rw [if_pos hv] at hrun
      exact ih (grtLitNames_inv h) hrun
    · rw [if_neg hv] at hrun
      by_cases hc : anchored ns ∈ st.cache
      · rw [if_pos hc] at hrun
        exact ih (grtPatNames_inv h) hrun
      · rw [if_neg hc] at hrun
        by_cases he : eng.compiles (anchored ns) = true
        · rw [if_pos he] at hrun
          refine ih (grtPatNames_inv ?_) hrun
          exact h
        · rw [if_neg he] at hrun
          cases hrun

theorem grtQualLoop_inv {eng : RegexEngine} {key : String}
    {rem : List String} {st st' : GrtSt}
    (h1 : st.targets.Nodup) (h2 : key ∉ st.targets) (h3 : key ∈ st.seen)
    (h4 : ∀ q ∈ rem, q ∈ st.targets → q ∈ st.seen) (h5 : rem.Nodup)
    (hrun : grtQualLoop eng rem st = .ok st') :
    st'.targets.Nodup ∧ key ∉ st'.targets := by
  induction rem generalizing st with
  | nil =>
    rw [grtQualLoop] at hrun
    cases hrun
    exact ⟨h1, h2⟩
  | cons q rest ih =>
    have h5' : rest.Nodup := h5.of_cons
    have hqrest : q ∉ rest := by
      intro hq
      exact (List.nodup_cons.mp h5).1 hq
    rw [grtQualLoop] at hrun
    by_cases hseen : q ∈ st.seen
    · rw [if_pos hseen] at hrun
      exact ih h1 h2 h3 (fun q' hq' => h4 q' (by simp [hq'])) h5' hrun
    · rw [if_neg hseen] at hrun
      rcases hsp : splitN3 q with _ | ⟨a, _ | ⟨b, _ | ⟨c, r⟩⟩⟩ <;>
        rw [hsp] at hrun
      · cases hrun
      · cases hrun
      · by_cases hb : validName b = true
        · simp only [hb, Bool.not_true, Bool.false_eq_true, if_false] at hrun
          by_cases ha : validName a = true
          · rw [if_pos ha] at hrun
            have hqt : q ∉ st.targets := by
              intro hq
              exact hseen (h4 q (by simp) hq)
            refine ih ?_ ?_ ?_ ?_ h5' hrun
            · refine List.Nodup.append h1 (List.nodup_singleton _) ?_
              intro x hx hx'
              simp at hx'
              subst hx'
              exact hqt hx
            · intro hk
              rcases List.mem_append.mp hk with hk | hk
              · exact h2 hk
              · simp at hk
                subst hk
                exact hseen h3
            · exact h3
            · intro q' hq' hmem
              rcases List.mem_append.mp hmem with hm | hm
              · exact h4 q' (by simp [hq']) hm
              · simp at hm
                subst hm
                exact absurd hq' hqrest
          · rw [if_neg ha] at hrun
            by_cases hc : anchored a ∈ st.cache
            · rw [if_pos hc] at hrun
              refine ih ?_ ?_ ?_ ?_ h5' hrun
              · exact h1
              · exact h2
              · exact h3
              · exact fun q' hq' => h4 q' (by simp [hq'])
            · rw [if_neg hc] at hrun
              by_cases he : eng.compiles (anchored a) = true
              · rw [if_pos he] at hrun
                refine ih ?_ ?_ ?_ ?_ h5' hrun
                · exact h1
                · exact h2
                · exact h3
                · exact fun q' hq' => h4 q' (by simp [hq'])
              · rw [if_neg he] at hrun
                cases hrun
        · simp only [hb, Bool.not_false, if_true] at hrun
          cases hrun
      · cases hrun

theorem grtToLoop_nodup {l names0 qual0 : List String}
    {names qual : List String}
    (hn : names0.Nodup) (hq : qual0.Nodup)
    (h : grtToLoop l names0 qual0 = .ok (names, qual)) :
    names.Nodup ∧ qual.Nodup := by
  induction l generalizing names0 qual0 with
  | nil =>
    rw [grtToLoop] at h
    cases h
    exact ⟨hn, hq⟩
  | cons n rest ih =>
    rw [grtToLoop] at h
    by_cases he : n = ""
    · rw [if_pos he] at h
      exact ih hn hq h
    · rw [if_neg he] at h
      by_cases hs : containsSlash n = true
      · rw [if_pos hs] at h
        exact ih hn (nodup_insertUniq hq n) h
      · rw [if_neg hs] at h
        by_cases hv : validName n = true
        · rw [if_pos hv] at h
          exact ih (nodup_insertUniq hn n) hq h
        · rw [if_neg hv] at h
          cases h

end KR

namespace KR

/-- C4: whenever `getReplicationTargets` succeeds, the literal-target
list is duplicate-free and never contains the source object's own
canonical key, for every annotation combination, pattern cache and regex
semantics. -/
theorem getReplicationTargetsHygiene (cfg : Config) (eng : RegexEngine)
    (cachePats : List TargetPattern) (obj : Meta)
    (ts : List String) (ps : List TargetPattern)
    (h : getReplicationTargets cfg eng cachePats obj = .ok (some (ts, ps))) :
    ts.Nodup ∧ metaKey obj ∉ ts := by
  rw [getReplicationTargets] at h
  split at h
  · exact absurd h (by simp)
  · rcases hto : (match alookup obj.ann (annTo cfg) with
        | none => Except.ok ([obj.name], [])
        | some s => grtToLoop (splitChar ',' s) [] [] :
        Except String (List String × List String)) with e | ⟨names, qualified⟩ <;>
      rw [hto] at h <;> dsimp only at h
    · cases h
    · rcases htn : (match alookup obj.ann (annToNs cfg) with
          | none => Except.ok [obj.ns]
          | some s => grtNsSplit (splitChar ',' s) [] :
          Except String (List String)) with e | namespaces <;>
        rw [htn] at h <;> dsimp only at h
      · cases h
      · rcases hns : grtNsLoop eng names namespaces
            { targets := [], pats := [], seen := [metaKey obj],
              cache := cachePats.map (·.pat) } with e | st1 <;>
          rw [hns] at h <;> dsimp only at h
        · cases h
        · rcases hq : grtQualLoop eng qualified st1 with e | st2 <;>
            rw [hq] at h <;> dsimp only at h
          · cases h
          · have hqn : qualified.Nodup := by
              rcases hto0 : alookup obj.ann (annTo cfg) with _ | s <;>
                rw [hto0] at hto
              · cases hto
                exact List.nodup_nil
              · exact (grtToLoop_nodup List.nodup_nil List.nodup_nil hto).2
            have hinv1 : GrtInv (metaKey obj)
                { targets := [], pats := [], seen := [metaKey obj],
                  cache := cachePats.map (·.pat) } := by
              refine ⟨List.nodup_nil, ?_, by simp, by simp⟩
              intro t ht
              simp at ht
            obtain ⟨g1, g2, g3, g4⟩ := grtNsLoop_inv hinv1 hns
            have := grtQualLoop_inv g1 g4 g3 (fun q _ hq' => g2 q hq') hqn hq
            injection h with h
            injection h with h
            injection h with h1 h2
            subst h1
            exact this

end KR

namespace KR

/-- Witness for C4 on a mixed qualified/bare `replicate-to` annotation. -/
theorem getReplicationTargetsHygieneWitness :
    (["d/c", "a/b"] : List String).Nodup ∧
    metaKey (⟨"d", "x", "1", [("replicate-to", "a/b,c")], []⟩ : Meta) ∉
      (["d/c", "a/b"] : List String) :=
  getReplicationTargetsHygiene ⟨false, false, [], "", "now"⟩
    ⟨fun _ => true, fun _ _ => false⟩ []
    ⟨"d", "x", "1", [("replicate-to", "a/b,c")], []⟩ ["d/c", "a/b"] []
    (by rfl)

end KR

namespace KR

/-! ## Engine invariants: self-reference freedom and primitive frames -/

/-- A meta whose `replicate-from` annotation resolves to its own key. -/
def selfRef (cfg : Config) (m : Meta) : Prop :=
  resolveAnn m (annFrom cfg) = some (metaKey m)

/-- Every object in the store is free of self-references. -/
def GoodStore (cfg : Config) (s : RState) : Prop :=
  ∀ m ∈ s.objects, ¬selfRef cfg m

/-- Every successful adapter response is free of self-references. -/
def GoodApi (cfg : Config) (s : RState) : Prop :=
  ∀ r ∈ s.api, ∀ m, r = some m → ¬selfRef cfg m

theorem goodUpsert {cfg : Config} {objs : List Meta} {m : Meta}
    (h1 : ∀ x ∈ objs, ¬selfRef cfg x) (hm : ¬selfRef cfg m) :
    ∀ x ∈ storeUpsert objs m, ¬selfRef cfg x :=
  fun x hx => (mem_storeUpsert hx).elim (fun e => e ▸ hm) (h1 x)

/-- Classifiers for the instrumentation trace. -/
def isInstallAct : Action → Bool
  | .install _ _ _ => true
  | _ => false

def isPullAct : Action → Bool
  | .pullPass _ => true
  | _ => false

def isUpdAct : Action → Bool
  | .apiUpdate _ _ => true
  | _ => false

/-- The shared shape of a primitive's effect on the state: graph maps and
namespaces untouched, trace extended by `d`, self-reference freedom
preserved, and the store modified only after a successful adapter
response. -/
def PrimSpec (cfg : Config) (s out : RState) (d : List Action) : Prop :=
  (out.targetsFrom = s.targetsFrom ∧ out.targetsTo = s.targetsTo ∧
   out.watchedTargets = s.watchedTargets ∧
   out.watchedPatterns = s.watchedPatterns ∧
   out.namespaces = s.namespaces) ∧
  out.trace = d ++ s.trace ∧
  (GoodStore cfg s → GoodApi cfg s → GoodStore cfg out ∧ GoodApi cfg out) ∧
  (out.objects ≠ s.objects → ∃ m, s.api.head? = some (some m))

theorem doClearObject_spec (cfg : Config) (s : RState) (obj : Meta) :
    ∃ d, PrimSpec cfg s (doClearObject cfg s obj).1 d ∧
      d.filter isInstallAct = [] ∧ d.filter isPullAct = [] ∧
      d.filter isUpdAct = [] := by
  rw [doClearObject]
  split
  · exact ⟨[.clearOb (metaKey obj)],
      ⟨⟨rfl, rfl, rfl, rfl, rfl⟩, rfl,
       fun h1 h2 => ⟨h1, h2⟩, fun hob => absurd rfl hob⟩, rfl, rfl, rfl⟩
  · simp only [emit, popApi]
    rcases hapi : s.api with _ | ⟨r, rest⟩ <;> dsimp only
    · exact ⟨[.apiClear (metaKey obj) _, .clearOb (metaKey obj)],
        ⟨⟨rfl, rfl, rfl, rfl, rfl⟩, rfl,
         fun h1 h2 => ⟨h1, fun q hq => absurd hq (List.not_mem_nil q)⟩,
         fun hob => absurd rfl hob⟩, rfl, rfl, rfl⟩
    · rcases r with _ | m <;> dsimp only
      · exact ⟨[.apiClear (metaKey obj) _, .clearOb (metaKey obj)],
          ⟨⟨rfl, rfl, rfl, rfl, rfl⟩, rfl,
           fun h1 h2 => ⟨h1, fun q hq =>
             h2 q (by rw [hapi]; exact List.mem_cons_of_mem _ hq)⟩,
           fun hob => absurd rfl hob⟩, rfl, rfl, rfl⟩
      · refine ⟨[.apiClear (metaKey obj) _, .clearOb (metaKey obj)],
          ⟨⟨rfl, rfl, rfl, rfl, rfl⟩, rfl, ?_, ?_⟩, rfl, rfl, rfl⟩
        · intro h1 h2
          refine ⟨goodUpsert h1 ?_, fun q hq =>
            h2 q (by rw [hapi]; exact List.mem_cons_of_mem _ hq)⟩
          exact h2 (some m) (by rw [hapi]; exact List.mem_cons_self _ _) m rfl
        · intro _
          exact ⟨m, by rw [hapi]; rfl⟩

theorem doDeleteObject_spec (cfg : Config) (s : RState) (obj : Meta) :
    ∃ d, PrimSpec cfg s (doDeleteObject cfg s obj).1 d ∧
      d.filter isInstallAct = [] ∧ d.filter isPullAct = [] ∧
      d.filter isUpdAct = [] := by
  rw [doDeleteObject]
  simp only [emit, popApi]
  rcases hapi : s.api with _ | ⟨r, rest⟩ <;> dsimp only
  · exact ⟨[.apiDelete (metaKey obj), .deleteOb (metaKey obj)],
      ⟨⟨rfl, rfl, rfl, rfl, rfl⟩, rfl,
       fun h1 h2 => ⟨h1, fun q hq => absurd hq (List.not_mem_nil q)⟩,
       fun hob => absurd rfl hob⟩, rfl, rfl, rfl⟩
  · rcases r with _ | m <;> dsimp only
    · exact ⟨[.apiDelete (metaKey obj), .deleteOb (metaKey obj)],
        ⟨⟨rfl, rfl, rfl, rfl, rfl⟩, rfl,
         fun h1 h2 => ⟨h1, fun q hq =>
           h2 q (by rw [hapi]; exact List.mem_cons_of_mem _ hq)⟩,
         fun hob => absurd rfl hob⟩, rfl, rfl, rfl⟩
    · refine ⟨[.apiDelete (metaKey obj), .deleteOb (metaKey obj)],
        ⟨⟨rfl, rfl, rfl, rfl, rfl⟩, rfl, ?_, ?_⟩, rfl, rfl, rfl⟩
      · intro h1 h2
        exact ⟨fun x hx => h1 x (mem_storeDel hx), fun q hq =>
          h2 q (by rw [hapi]; exact List.mem_cons_of_mem _ hq)⟩
      · intro _
        exact ⟨m, by rw [hapi]; rfl⟩

end KR

namespace KR

/-- Lift a primitive spec across an initial trace emission. -/
theorem primSpec_emit {cfg : Config} {s : RState} {a : Action} {out : RState}
    {d : List Action} (h : PrimSpec cfg (emit s a) out d) :
    PrimSpec cfg s out (d ++ [a]) := by
  obtain ⟨hf, ht, hg, ho⟩ := h
  refine ⟨hf, ?_, hg, ho⟩
  rw [ht]
  simp [emit]

theorem replicateObject_spec (cfg : Config) (eng : RegexEngine) (s : RState)
    (obj srcObj : Meta) :
    ∃ d, PrimSpec cfg s (replicateObject cfg eng s obj srcObj).1 d ∧
      d.filter isInstallAct = [] ∧ d.filter isPullAct = [] := by
  rw [replicateObject]
  (try dsimp only)
  rcases isReplicationAllowed cfg eng obj srcObj with ⟨ok, nok, e⟩
  (try dsimp only)
  cases ok
  · cases nok
    · (try dsimp only)
      exact ⟨[.replicate (metaKey obj) (metaKey srcObj)],
        ⟨⟨rfl, rfl, rfl, rfl, rfl⟩, rfl,
         fun h1 h2 => ⟨h1, h2⟩, fun hob => absurd rfl hob⟩, rfl, rfl⟩
    · (try dsimp only)
      obtain ⟨d, hspec, hfi, hfp, _⟩ :=
        doClearObject_spec cfg
          (emit s (.replicate (metaKey obj) (metaKey srcObj))) obj
      exact ⟨d ++ [.replicate (metaKey obj) (metaKey srcObj)],
        primSpec_emit hspec,
        by simp [List.filter_append, hfi, isInstallAct],
        by simp [List.filter_append, hfp, isPullAct]⟩
  · (try dsimp only)
    rcases needsDataUpdate cfg obj srcObj with ⟨needs, o2, e2⟩
    (try dsimp only)
    cases needs
    · (try dsimp only)
      exact ⟨[.replicate (metaKey obj) (metaKey srcObj)],
        ⟨⟨rfl, rfl, rfl, rfl, rfl⟩, rfl,
         fun h1 h2 => ⟨h1, h2⟩, fun hob => absurd rfl hob⟩, rfl, rfl⟩
    · dsimp only [emit, popApi]
      rcases hapi : s.api with _ | ⟨r, rest⟩ <;> (try dsimp only)
      · exact ⟨[.apiUpdate (metaKey obj) _,
            .replicate (metaKey obj) (metaKey srcObj)],
          ⟨⟨rfl, rfl, rfl, rfl, rfl⟩, rfl,
           fun h1 h2 => ⟨h1, fun q hq => absurd hq (List.not_mem_nil q)⟩,
           fun hob => absurd rfl hob⟩, rfl, rfl⟩
      · rcases r with _ | m <;> (try dsimp only)
        · exact ⟨[.apiUpdate (metaKey obj) _,
              .replicate (metaKey obj) (metaKey srcObj)],
            ⟨⟨rfl, rfl, rfl, rfl, rfl⟩, rfl,
             fun h1 h2 => ⟨h1, fun q hq =>
               h2 q (by rw [hapi]; exact List.mem_cons_of_mem _ hq)⟩,
             fun hob => absurd rfl hob⟩, rfl, rfl⟩
        · refine ⟨[.apiUpdate (metaKey obj) _,
              .replicate (metaKey obj) (metaKey srcObj)],
            ⟨⟨rfl, rfl, rfl, rfl, rfl⟩, rfl, ?_, ?_⟩, rfl, rfl⟩
          · intro h1 h2
            refine ⟨goodUpsert h1 ?_, fun q hq =>
              h2 q (by rw [hapi]; exact List.mem_cons_of_mem _ hq)⟩
            exact h2 (some m) (by rw [hapi]; exact List.mem_cons_self _ _) m rfl
          · intro _
            exact ⟨m, by rw [hapi]; rfl⟩

end KR

namespace KR

theorem apiInstallStep_spec (cfg : Config) (s : RState) (cm : Meta)
    (hd : Bool) :
    ∃ d, PrimSpec cfg s (apiInstallStep s cm hd).1 d ∧
      d.filter isInstallAct = [] ∧ d.filter isPullAct = [] ∧
      d.filter isUpdAct = [] := by
  rw [apiInstallStep]
  simp only [emit, popApi]
  rcases hapi : s.api with _ | ⟨r, rest⟩ <;> (try dsimp only)
  · exact ⟨[.apiInstall cm hd],
      ⟨⟨rfl, rfl, rfl, rfl, rfl⟩, rfl,
       fun h1 h2 => ⟨h1, fun q hq => absurd hq (List.not_mem_nil q)⟩,
       fun hob => absurd rfl hob⟩, rfl, rfl, rfl⟩
  · rcases r with _ | m <;> (try dsimp only)
    · exact ⟨[.apiInstall cm hd],
        ⟨⟨rfl, rfl, rfl, rfl, rfl⟩, rfl,
         fun h1 h2 => ⟨h1, fun q hq =>
           h2 q (by rw [hapi]; exact List.mem_cons_of_mem _ hq)⟩,
         fun hob => absurd rfl hob⟩, rfl, rfl, rfl⟩
    · refine ⟨[.apiInstall cm hd],
        ⟨⟨rfl, rfl, rfl, rfl, rfl⟩, rfl, ?_, ?_⟩, rfl, rfl, rfl⟩
      · intro h1 h2
        refine ⟨goodUpsert h1 ?_, fun q hq =>
          h2 q (by rw [hapi]; exact List.mem_cons_of_mem _ hq)⟩
        exact h2 (some m) (by rw [hapi]; exact List.mem_cons_self _ _) m rfl
      · intro _
        exact ⟨m, by rw [hapi]; rfl⟩

theorem installWithData_spec (cfg : Config) (s : RState)
    (tns tname : String) (targetMeta : Option Meta) (srcObj : Meta) :
    ∃ d, PrimSpec cfg s
        (installWithData cfg s tns tname targetMeta srcObj).1 d ∧
      d.filter isInstallAct = [] ∧ d.filter isPullAct = [] ∧
      d.filter isUpdAct = [] := by
  rw [installWithData]
  exact apiInstallStep_spec cfg s _ true

theorem installAllowedCopy_spec (cfg : Config) (eng : RegexEngine)
    (s : RState) (tm : Meta) (targetObject : Option Meta) (srcObj : Meta)
    (once : Bool) :
    ∃ d, PrimSpec cfg s
        (installAllowedCopy cfg eng s tm targetObject srcObj once).1 d ∧
      d.filter isInstallAct = [] ∧ d.filter isPullAct = [] ∧
      d.filter isUpdAct = [] := by
  have hnil : ∃ d, PrimSpec cfg s s d ∧
      d.filter isInstallAct = [] ∧ d.filter isPullAct = [] ∧
      d.filter isUpdAct = [] :=
    ⟨[], ⟨⟨rfl, rfl, rfl, rfl, rfl⟩, rfl, fun h1 h2 => ⟨h1, h2⟩,
      fun hob => absurd rfl hob⟩, rfl, rfl, rfl⟩
  rw [installAllowedCopy]
  cases once
  · exact hnil
  · rw [if_neg (by simp)]
    rcases needsAllowedAnnotsUpdate cfg eng tm srcObj with e | b <;>
      (try dsimp only)
    · exact hnil
    · cases b <;> (try dsimp only)
      · exact hnil
      · exact apiInstallStep_spec cfg s _ _

theorem installObjectResolved_spec (cfg : Config) (eng : RegexEngine)
    (s : RState) (tns tname : String) (targetMeta targetObject : Option Meta)
    (srcObj : Meta) :
    ∃ d, PrimSpec cfg s
        (installObjectResolved cfg eng s tns tname targetMeta targetObject
          srcObj).1 d ∧
      d.filter isInstallAct = [] ∧ d.filter isPullAct = [] ∧
      d.filter isUpdAct = [] := by
  have hnil : ∃ d, PrimSpec cfg s s d ∧
      d.filter isInstallAct = [] ∧ d.filter isPullAct = [] ∧
      d.filter isUpdAct = [] :=
    ⟨[], ⟨⟨rfl, rfl, rfl, rfl, rfl⟩, rfl, fun h1 h2 => ⟨h1, h2⟩,
      fun hob => absurd rfl hob⟩, rfl, rfl, rfl⟩
  rw [installObjectResolved.eq_def]
  rcases resolveAnn srcObj (annFrom cfg) with _ | source <;> (try dsimp only)
  · -- direct push
    rcases targetMeta with _ | tm <;> (try dsimp only)
    · exact installWithData_spec cfg s tns tname none srcObj
    · by_cases hfrom : alookup tm.ann (annFrom cfg) = none
      · rw [if_neg (not_not_intro hfrom)]
        rcases needsDataUpdate cfg tm srcObj with ⟨needs, once, e2⟩
        (try dsimp only)
        cases needs
        · rw [if_neg (by simp)]
          exact installAllowedCopy_spec cfg eng s tm targetObject srcObj once
        · rw [if_pos rfl]
          exact installWithData_spec cfg s tns tname (some tm) srcObj
      · rw [if_pos hfrom]
        exact installWithData_spec cfg s tns tname (some tm) srcObj
  · -- push+pull
    rcases targetMeta with _ | tm <;> (try dsimp only)
    · exact apiInstallStep_spec cfg s _ _
    · rcases needsFromAnnotsUpdate cfg tm srcObj with e3 | b <;>
        (try dsimp only)
      · exact hnil
      · cases b <;> (try dsimp only)
        · exact hnil
        · exact apiInstallStep_spec cfg s _ _

end KR

namespace KR

theorem installObject_spec (cfg : Config) (eng : RegexEngine) (s : RState)
    (target : String) (tobj? : Option Meta) (srcObj : Meta) :
    ∃ d, PrimSpec cfg s
        (installObject cfg eng s target tobj? srcObj).1 d ∧
      d.filter isInstallAct = [.install target tobj?.isSome (metaKey srcObj)] ∧
      d.filter isPullAct = [] ∧ d.filter isUpdAct = [] := by
  have hone : ∀ s' : RState, s' = emit s (.install target tobj?.isSome (metaKey srcObj)) →
      ∃ d, PrimSpec cfg s s' d ∧
        d.filter isInstallAct =
          [.install target tobj?.isSome (metaKey srcObj)] ∧
        d.filter isPullAct = [] ∧ d.filter isUpdAct = [] := by
    rintro _ rfl
    exact ⟨[.install target tobj?.isSome (metaKey srcObj)],
      ⟨⟨rfl, rfl, rfl, rfl, rfl⟩, rfl, fun h1 h2 => ⟨h1, h2⟩,
       fun hob => absurd rfl hob⟩, by simp [isInstallAct], rfl, rfl⟩
  rw [installObject.eq_def]
  rcases tobj? with _ | tObj <;> (try dsimp only [Option.isSome])
  · rcases hsp : splitN2 target with _ | ⟨tns, _ | ⟨tname, rest⟩⟩ <;>
      (try dsimp only)
    · exact hone _ rfl
    · exact hone _ rfl
    · rcases rest with _ | ⟨x, xs⟩ <;> (try dsimp only)
      · rcases hget : getFromStore cfg
            (emit s (.install target false (metaKey srcObj))) target with
            e | tmo <;> (try dsimp only)
        · exact hone _ rfl
        · rcases tmo with _ | tm <;> (try dsimp only)
          · obtain ⟨d, hspec, hfi, hfp, hfu⟩ :=
              installObjectResolved_spec cfg eng
                (emit s (.install target false (metaKey srcObj)))
                tns tname none none srcObj
            exact ⟨d ++ [.install target false (metaKey srcObj)],
              primSpec_emit hspec,
              by simp [List.filter_append, hfi, isInstallAct],
              by simp [List.filter_append, hfp, isPullAct],
              by simp [List.filter_append, hfu, isUpdAct]⟩
          · cases hrb : isReplicatedBy cfg tm srcObj <;> (try dsimp only)
            · exact hone _ rfl
            · obtain ⟨d, hspec, hfi, hfp, hfu⟩ :=
                installObjectResolved_spec cfg eng
                  (emit s (.install target false (metaKey srcObj)))
                  tns tname (some tm) (some tm) srcObj
              exact ⟨d ++ [.install target false (metaKey srcObj)],
                primSpec_emit hspec,
                by simp [List.filter_append, hfi, isInstallAct],
                by simp [List.filter_append, hfp, isPullAct],
                by simp [List.filter_append, hfu, isUpdAct]⟩
      · exact hone _ rfl
  · obtain ⟨d, hspec, hfi, hfp, hfu⟩ :=
      installObjectResolved_spec cfg eng
        (emit s (.install target true (metaKey srcObj)))
        tObj.ns tObj.name (some tObj) (some tObj) srcObj
    exact ⟨d ++ [.install target true (metaKey srcObj)],
      primSpec_emit hspec,
      by simp [List.filter_append, hfi, isInstallAct],
      by simp [List.filter_append, hfp, isPullAct],
      by simp [List.filter_append, hfu, isUpdAct]⟩

theorem clearObject_spec (cfg : Config) (s : RState) (key : String)
    (srcObj : Meta) :
    ∃ d, PrimSpec cfg s (clearObject cfg s key srcObj).1 d ∧
      d.filter isInstallAct = [] ∧ d.filter isPullAct = [] ∧
      d.filter isUpdAct = [] := by
  have hnil : ∃ d, PrimSpec cfg s s d ∧
      d.filter isInstallAct = [] ∧ d.filter isPullAct = [] ∧
      d.filter isUpdAct = [] :=
    ⟨[], ⟨⟨rfl, rfl, rfl, rfl, rfl⟩, rfl, fun h1 h2 => ⟨h1, h2⟩,
      fun hob => absurd rfl hob⟩, rfl, rfl, rfl⟩
  rw [clearObject]
  rcases requireFromStore cfg s key with e | tm <;> (try dsimp only)
  · exact hnil
  · cases annRefersTo tm (annFrom cfg) srcObj <;> (try dsimp only)
    · exact hnil
    · exact doClearObject_spec cfg s tm

theorem deleteObject_spec (cfg : Config) (s : RState) (key : String)
    (srcObj : Meta) :
    ∃ d, PrimSpec cfg s (deleteObject cfg s key srcObj).1 d ∧
      d.filter isInstallAct = [] ∧ d.filter isPullAct = [] ∧
      d.filter isUpdAct = [] := by
  have hnil : ∃ d, PrimSpec cfg s s d ∧
      d.filter isInstallAct = [] ∧ d.filter isPullAct = [] ∧
      d.filter isUpdAct = [] :=
    ⟨[], ⟨⟨rfl, rfl, rfl, rfl, rfl⟩, rfl, fun h1 h2 => ⟨h1, h2⟩,
      fun hob => absurd rfl hob⟩, rfl, rfl, rfl⟩
  rw [deleteObject]
  rcases requireFromStore cfg s key with e | tm <;> (try dsimp only)
  · exact hnil
  · cases isReplicatedBy cfg tm srcObj <;> (try dsimp only)
    · exact hnil
    · exact doDeleteObject_spec cfg s tm

end KR

namespace KR

/-! ## C10: store write-through only on adapter success -/

/-- C10: in each engine mutation primitive (`replicateObject`,
`installObject`, `doClearObject`, `doDeleteObject`) the local object
store changes only when the adapter call it performed returned without
error, i.e. only when the next pending adapter response is a success. -/
theorem storeWriteThroughAtomic (cfg : Config) (eng : RegexEngine)
    (s : RState) (obj srcObj : Meta) (target : String)
    (tobj? : Option Meta) :
    ((replicateObject cfg eng s obj srcObj).1.objects ≠ s.objects →
      ∃ m, s.api.head? = some (some m)) ∧
    ((installObject cfg eng s target tobj? srcObj).1.objects ≠ s.objects →
      ∃ m, s.api.head? = some (some m)) ∧
    ((doClearObject cfg s obj).1.objects ≠ s.objects →
      ∃ m, s.api.head? = some (some m)) ∧
    ((doDeleteObject cfg s obj).1.objects ≠ s.objects →
      ∃ m, s.api.head? = some (some m)) := by
  obtain ⟨_, h1, -⟩ := replicateObject_spec cfg eng s obj srcObj
  obtain ⟨_, h2, -⟩ := installObject_spec cfg eng s target tobj? srcObj
  obtain ⟨_, h3, -⟩ := doClearObject_spec cfg s obj
  obtain ⟨_, h4, -⟩ := doDeleteObject_spec cfg s obj
  exact ⟨h1.2.2.2, h2.2.2.2, h3.2.2.2, h4.2.2.2⟩

/-- Witness for C10: a `doClearObject` that succeeds replaces the stored
object. -/
theorem storeWriteThroughAtomicWitness :
    ∃ m, (({ objects := [⟨"a", "t", "1", [("replicated-from-version", "2")], []⟩],
             namespaces := [], targetsFrom := [], targetsTo := [],
             watchedTargets := [], watchedPatterns := [],
             api := [some ⟨"a", "t", "9", [], []⟩], trace := [] } :
           RState).api.head? = some (some m)) :=
  (storeWriteThroughAtomic ⟨false, false, [], "", "now"⟩
    ⟨fun _ => true, fun _ _ => true⟩
    { objects := [⟨"a", "t", "1", [("replicated-from-version", "2")], []⟩],
      namespaces := [], targetsFrom := [], targetsTo := [],
      watchedTargets := [], watchedPatterns := [],
      api := [some ⟨"a", "t", "9", [], []⟩], trace := [] }
    ⟨"a", "t", "1", [("replicated-from-version", "2")], []⟩
    ⟨"b", "s", "2", [], []⟩ "x/y" none).2.2.1 (by decide)

/-! ## C8: permission handling in replicateObject -/

/-- C8: when replication is explicitly disallowed, `replicateObject` is
exactly `doClearObject`; when it is merely not allowed, it returns the
error touching neither the store nor the adapter; the adapter `Update`
call happens only when replication is allowed. -/
theorem replicatePermissionEnforcement (cfg : Config) (eng : RegexEngine)
    (s : RState) (obj srcObj : Meta) :
    ((isReplicationAllowed cfg eng obj srcObj).1 = false →
     (isReplicationAllowed cfg eng obj srcObj).2.1 = true →
      replicateObject cfg eng s obj srcObj =
        doClearObject cfg
          (emit s (.replicate (metaKey obj) (metaKey srcObj))) obj) ∧
    ((isReplicationAllowed cfg eng obj srcObj).1 = false →
     (isReplicationAllowed cfg eng obj srcObj).2.1 = false →
      (replicateObject cfg eng s obj srcObj).2 = true ∧
      (replicateObject cfg eng s obj srcObj).1.objects = s.objects ∧
      (replicateObject cfg eng s obj srcObj).1.api = s.api) ∧
    ((isReplicationAllowed cfg eng obj srcObj).1 = false →
      (replicateObject cfg eng s obj srcObj).1.trace.filter isUpdAct =
        s.trace.filter isUpdAct) := by
  rw [replicateObject]
  rcases hall : isReplicationAllowed cfg eng obj srcObj with ⟨ok, nok, e⟩
  (try dsimp only)
  cases ok
  · cases nok
    · exact ⟨fun _ h => absurd h (by simp), fun _ _ => ⟨rfl, rfl, rfl⟩,
        fun _ => (by simp [emit, isUpdAct])⟩
    · refine ⟨fun _ _ => rfl, fun _ h => absurd h (by simp), fun _ => ?_⟩
      rw [if_neg (show ¬false = true by simp),
        if_pos (show true = true from rfl)]
      obtain ⟨d, hspec, -, -, hfu⟩ :=
        doClearObject_spec cfg
          (emit s (.replicate (metaKey obj) (metaKey srcObj))) obj
      rw [hspec.2.1]
      simp [List.filter_append, hfu, emit, isUpdAct]
  · exact ⟨fun h => absurd h (by simp), fun h => absurd h (by simp),
      fun h => absurd h (by simp)⟩

/-- Witness for C8: a source that explicitly disallows replication makes
`replicateObject` clear the target. -/
theorem replicatePermissionEnforcementWitness :
    replicateObject ⟨false, false, [], "", "now"⟩
      ⟨fun _ => true, fun _ _ => true⟩
      { objects := [], namespaces := [], targetsFrom := [], targetsTo := [],
        watchedTargets := [], watchedPatterns := [], api := [], trace := [] }
      ⟨"a", "t", "1", [], []⟩
      ⟨"b", "s", "2", [("replication-allowed", "false")], []⟩ =
    doClearObject ⟨false, false, [], "", "now"⟩
      (emit { objects := [], namespaces := [], targetsFrom := [],
              targetsTo := [], watchedTargets := [], watchedPatterns := [],
              api := [], trace := [] }
        (.replicate "a/t" "b/s"))
      ⟨"a", "t", "1", [], []⟩ :=
  (replicatePermissionEnforcement ⟨false, false, [], "", "now"⟩
    ⟨fun _ => true, fun _ _ => true⟩
    { objects := [], namespaces := [], targetsFrom := [], targetsTo := [],
      watchedTargets := [], watchedPatterns := [], api := [], trace := [] }
    ⟨"a", "t", "1", [], []⟩
    ⟨"b", "s", "2", [("replication-allowed", "false")], []⟩).1
    (by decide) (by decide)

end KR

namespace KR

/-! ## Loop-level composition -/

/-- Like `PrimSpec` but without the store condition: the shape shared by
every sequence of primitive calls. -/
def StepSpec (cfg : Config) (s out : RState) (d : List Action) : Prop :=
  (out.targetsFrom = s.targetsFrom ∧ out.targetsTo = s.targetsTo ∧
   out.watchedTargets = s.watchedTargets ∧
   out.watchedPatterns = s.watchedPatterns ∧
   out.namespaces = s.namespaces) ∧
  out.trace = d ++ s.trace ∧
  (GoodStore cfg s → GoodApi cfg s → GoodStore cfg out ∧ GoodApi cfg out)

theorem stepSpec_of_prim {cfg : Config} {s out : RState} {d : List Action}
    (h : PrimSpec cfg s out d) : StepSpec cfg s out d :=
  ⟨h.1, h.2.1, h.2.2.1⟩

theorem stepSpec_refl (cfg : Config) (s : RState) : StepSpec cfg s s [] :=
  ⟨⟨rfl, rfl, rfl, rfl, rfl⟩, rfl, fun h1 h2 => ⟨h1, h2⟩⟩

theorem stepSpec_trans {cfg : Config} {s1 s2 s3 : RState}
    {d1 d2 : List Action} (h1 : StepSpec cfg s1 s2 d1)
    (h2 : StepSpec cfg s2 s3 d2) : StepSpec cfg s1 s3 (d2 ++ d1) := by
  obtain ⟨⟨f1, f2, f3, f4, f5⟩, ht1, hg1⟩ := h1
  obtain ⟨⟨g1, g2, g3, g4, g5⟩, ht2, hg2⟩ := h2
  refine ⟨⟨g1.trans f1, g2.trans f2, g3.trans f3, g4.trans f4, g5.trans f5⟩,
    ?_, ?_⟩
  · rw [ht2, ht1, List.append_assoc]
  · intro ha hb
    obtain ⟨ha', hb'⟩ := hg1 ha hb
    exact hg2 ha' hb'

theorem delTargetsLoop_spec (cfg : Config) (srcObj : Meta) :
    ∀ (l : List String) (s : RState),
      ∃ d, StepSpec cfg s (delTargetsLoop cfg srcObj l s) d ∧
        d.filter isInstallAct = [] ∧ d.filter isPullAct = [] ∧
        d.filter isUpdAct = [] := by
  intro l
  induction l with
  | nil =>
    intro s
    exact ⟨[], stepSpec_refl cfg s, rfl, rfl, rfl⟩
  | cons t rest ih =>
    intro s
    rw [delTargetsLoop]
    obtain ⟨d1, hs1, hi1, hp1, hu1⟩ := deleteObject_spec cfg s t srcObj
    obtain ⟨d2, hs2, hi2, hp2, hu2⟩ := ih (deleteObject cfg s t srcObj).1
    exact ⟨d2 ++ d1, stepSpec_trans (stepSpec_of_prim hs1) hs2,
      by simp [List.filter_append, hi1, hi2],
      by simp [List.filter_append, hp1, hp2],
      by simp [List.filter_append, hu1, hu2]⟩

theorem objectDeletedClearLoop_spec (cfg : Config) (srcObj : Meta) :
    ∀ (l : List String) (prev : String) (acc : List String) (s : RState),
      ∃ d, StepSpec cfg s (objectDeletedClearLoop cfg srcObj l prev acc s).2 d ∧
        d.filter isInstallAct = [] ∧ d.filter isPullAct = [] ∧
        d.filter isUpdAct = [] ∧
        ∀ x ∈ (objectDeletedClearLoop cfg srcObj l prev acc s).1,
          x ∈ acc ∨ x ∈ l := by
  intro l
  induction l with
  | nil =>
    intro prev acc s
    exact ⟨[], stepSpec_refl cfg s, rfl, rfl, rfl, fun x hx => .inl hx⟩
  | cons dk rest ih =>
    intro prev acc s
    rw [objectDeletedClearLoop]
    by_cases hdup : prev = dk
    · rw [if_pos hdup]
      obtain ⟨d, hs, hi, hp, hu, hmem⟩ := ih prev acc s
      exact ⟨d, hs, hi, hp, hu, fun x hx => ((hmem x hx).imp id (List.mem_cons_of_mem _))⟩
    · rw [if_neg hdup]
      obtain ⟨d1, hs1, hi1, hp1, hu1⟩ := clearObject_spec cfg s dk srcObj
      rcases hok : (clearObject cfg s dk srcObj).2
      · obtain ⟨d2, hs2, hi2, hp2, hu2, hmem⟩ :=
          ih dk acc (clearObject cfg s dk srcObj).1
        refine ⟨d2 ++ d1, ?_, by simp [List.filter_append, hi1, hi2],
          by simp [List.filter_append, hp1, hp2],
          by simp [List.filter_append, hu1, hu2],
          fun x hx => ((hmem x (by simpa [hok] using hx)).imp id (List.mem_cons_of_mem _))⟩
        have := stepSpec_trans (stepSpec_of_prim hs1) hs2
        simpa [hok] using this
      · obtain ⟨d2, hs2, hi2, hp2, hu2, hmem⟩ :=
          ih dk (acc ++ [dk]) (clearObject cfg s dk srcObj).1
        refine ⟨d2 ++ d1, ?_, by simp [List.filter_append, hi1, hi2],
          by simp [List.filter_append, hp1, hp2],
          by simp [List.filter_append, hu1, hu2], ?_⟩
        · have := stepSpec_trans (stepSpec_of_prim hs1) hs2
          simpa [hok] using this
        · intro x hx
          rcases hmem x (by simpa [hok] using hx) with hx' | hx'
          · rcases List.mem_append.mp hx' with h' | h'
            · exact .inl h'
            · simp at h'
              subst h'
              exact .inr (by simp)
          · exact .inr (by simp [hx'])

end KR

namespace KR

theorem getFromStore_key {cfg : Config} {s : RState} {k : String} {m : Meta}
    (h : getFromStore cfg s k = .ok (some m)) :
    m ∈ s.objects ∧ metaKey m = k := by
  rw [getFromStore] at h
  rcases hsg : storeGet s.objects k with _ | m' <;> rw [hsg] at h <;>
    dsimp only at h
  · cases h
  · by_cases hc :
      (!cfg.ignoreUnknown && decide (unknownAnns cfg m'.ann ≠ [])) = true
    · rw [if_pos hc] at h
      cases h
    · rw [if_neg hc] at h
      cases h
      exact storeGet_mem hsg

theorem foldl_nodup_insertUniq {α : Type} (f : List String → α → List String)
    (hf : ∀ acc x, acc.Nodup → (f acc x).Nodup) :
    ∀ (l : List α) (acc : List String), acc.Nodup → (l.foldl f acc).Nodup := by
  intro l
  induction l with
  | nil => intro acc h; exact h
  | cons x rest ih =>
    intro acc h
    exact ih _ (hf acc x h)

theorem todoDel_nodup (eng : RegexEngine) (key : String) (meta : Meta)
    (wT : List (String × List String))
    (wP : List (String × List TargetPattern)) :
    (todoDel eng key meta wT wP).Nodup := by
  rw [todoDel]
  refine foldl_nodup_insertUniq _ ?_ _ _
    (foldl_nodup_insertUniq _ ?_ _ _ List.nodup_nil)
  · intro acc x h
    split
    · exact h
    · split
      · exact nodup_insertUniq h _
      · exact h
  · intro acc x h
    split
    · exact nodup_insertUniq h _
    · exact h

theorem preHandoff_trace (cfg : Config) (s : RState) (obj : Meta) :
    ∃ d, (preHandoff cfg s obj).trace = d ++ s.trace ∧
      d.filter isInstallAct = [] ∧ d.filter isPullAct = [] ∧
      d.filter isUpdAct = [] := by
  rw [preHandoff]
  rcases alookup s.targetsTo (metaKey obj) with _ | ts <;> (try dsimp only)
  · rcases alookup s.targetsFrom (metaKey obj) with _ | replicas <;>
      (try dsimp only)
    · exact ⟨[], rfl, rfl, rfl, rfl⟩
    · obtain ⟨d, hs, hi, hp, hu, -⟩ :=
        objectDeletedClearLoop_spec cfg obj (sortStrings replicas) "" []
          { s with targetsTo := adel s.targetsTo (metaKey obj),
                   watchedTargets := adel s.watchedTargets (metaKey obj),
                   watchedPatterns := adel s.watchedPatterns (metaKey obj) }
      refine ⟨d, ?_, hi, hp, hu⟩
      split <;> exact hs.2.1
  · obtain ⟨d1, hs1, hi1, hp1, hu1⟩ := delTargetsLoop_spec cfg obj ts s
    rcases alookup (delTargetsLoop cfg obj ts s).targetsFrom (metaKey obj)
        with _ | replicas <;> (try dsimp only)
    · exact ⟨d1, hs1.2.1, hi1, hp1, hu1⟩
    · obtain ⟨d2, hs2, hi2, hp2, hu2, -⟩ :=
        objectDeletedClearLoop_spec cfg obj (sortStrings replicas) "" []
          { delTargetsLoop cfg obj ts s with
              targetsTo := adel (delTargetsLoop cfg obj ts s).targetsTo
                (metaKey obj),
              watchedTargets := adel (delTargetsLoop cfg obj ts s).watchedTargets
                (metaKey obj),
              watchedPatterns := adel
                (delTargetsLoop cfg obj ts s).watchedPatterns (metaKey obj) }
      refine ⟨d2 ++ d1, ?_, by simp [List.filter_append, hi1, hi2],
        by simp [List.filter_append, hp1, hp2],
        by simp [List.filter_append, hu1, hu2]⟩
      have ht2 := hs2.2.1
      have ht1 := hs1.2.1
      split <;>
        · rw [ht2]
          dsimp only
          rw [ht1, List.append_assoc]

end KR

namespace KR

theorem handOffLoop_spec (cfg : Config) (eng : RegexEngine) (key : String)
    (meta : Meta) :
    ∀ (todo : List String) (s : RState), todo.Nodup →
      ∃ d, (handOffLoop cfg eng key meta todo s).trace = d ++ s.trace ∧
        d.filter isPullAct = [] ∧ d.filter isUpdAct = [] ∧
        (d.filter isInstallAct = [] ∨
         ∃ srcK sm, srcK ∈ todo ∧
           d.filter isInstallAct = [.install key false srcK] ∧
           getFromStore cfg s srcK = .ok (some sm) ∧
           isReplicatedTo cfg eng (lookupD s.watchedPatterns srcK) sm meta =
             .ok true) := by
  intro todo
  induction todo with
  | nil =>
    intro s _
    exact ⟨[], rfl, rfl, rfl, .inl rfl⟩
  | cons src rest ih =>
    intro s hnd
    have hnd' : rest.Nodup := hnd.of_cons
    have hsrc : src ∉ rest := (List.nodup_cons.mp hnd).1
    rw [handOffLoop]
    rcases hget : getFromStore cfg s src with e | tmo <;> (try dsimp only)
    · obtain ⟨d, ht, hp, hu, hcond⟩ := ih s hnd'
      refine ⟨d, ht, hp, hu, ?_⟩
      refine hcond.imp id ?_
      rintro ⟨srcK, sm, hmem, hfi, hg, hr⟩
      exact ⟨srcK, sm, List.mem_cons_of_mem _ hmem, hfi, hg, hr⟩
    · rcases tmo with _ | sm <;> (try dsimp only)
      · obtain ⟨d, ht, hp, hu, hcond⟩ := ih
          { s with watchedTargets := adel s.watchedTargets src,
                   watchedPatterns := adel s.watchedPatterns src } hnd'
        refine ⟨d, ht, hp, hu, ?_⟩
        refine hcond.imp id ?_
        rintro ⟨srcK, sm, hmem, hfi, hg, hr⟩
        have hne : srcK ≠ src := fun he => hsrc (he ▸ hmem)
        refine ⟨srcK, sm, List.mem_cons_of_mem _ hmem, hfi, hg, ?_⟩
        rw [lookupD, alookup_adel_ne _ hne] at hr
        exact hr
      · rcases hrt : isReplicatedTo cfg eng (lookupD s.watchedPatterns src)
            sm meta with e | b <;> (try dsimp only)
        · obtain ⟨d, ht, hp, hu, hcond⟩ := ih s hnd'
          refine ⟨d, ht, hp, hu, ?_⟩
          refine hcond.imp id ?_
          rintro ⟨srcK, sm', hmem, hfi, hg, hr⟩
          exact ⟨srcK, sm', List.mem_cons_of_mem _ hmem, hfi, hg, hr⟩
        · cases b <;> (try dsimp only)
          · obtain ⟨d, ht, hp, hu, hcond⟩ := ih s hnd'
            refine ⟨d, ht, hp, hu, ?_⟩
            refine hcond.imp id ?_
            rintro ⟨srcK, sm', hmem, hfi, hg, hr⟩
            exact ⟨srcK, sm', List.mem_cons_of_mem _ hmem, hfi, hg, hr⟩
          · obtain ⟨d, hspec, hfi, hfp, hfu⟩ :=
              installObject_spec cfg eng s key none sm
            refine ⟨d, hspec.2.1, hfp, hfu, .inr ⟨src, sm, by simp, ?_, hget, hrt⟩⟩
            rw [hfi]
            have := (getFromStore_key hget).2
            rw [this]
            rfl
end KR

namespace KR

/-- C7: an `ObjectDeleted(obj)` invocation makes no `installObject` call
before the hand-off, and the hand-off installs the vacated key for at
most one source, which must still be in the store (after steps 1–3) and
satisfy `isReplicatedTo`; the candidate set is exactly the sources whose
`watchedTargets` contain the key or whose `watchedPatterns` match the
deleted meta. -/
theorem deletionHandOffUnique (cfg : Config) (eng : RegexEngine)
    (s : RState) (obj : Meta) :
    ∃ d1 d2,
      (preHandoff cfg s obj).trace = d1 ++ s.trace ∧
      d1.filter isInstallAct = [] ∧
      (objectDeleted cfg eng s obj).trace =
        d2 ++ (preHandoff cfg s obj).trace ∧
      d2.filter isPullAct = [] ∧
      (d2.filter isInstallAct = [] ∨
       ∃ srcK sm,
         srcK ∈ todoDel eng (metaKey obj) obj
           (preHandoff cfg s obj).watchedTargets
           (preHandoff cfg s obj).watchedPatterns ∧
         d2.filter isInstallAct = [.install (metaKey obj) false srcK] ∧
         getFromStore cfg (preHandoff cfg s obj) srcK = .ok (some sm) ∧
         isReplicatedTo cfg eng
           (lookupD (preHandoff cfg s obj).watchedPatterns srcK) sm obj =
           .ok true) := by
  obtain ⟨d1, ht1, hi1, hp1, hu1⟩ := preHandoff_trace cfg s obj
  obtain ⟨d2, ht2, hp2, hu2, hcond⟩ :=
    handOffLoop_spec cfg eng (metaKey obj) obj
      (todoDel eng (metaKey obj) obj (preHandoff cfg s obj).watchedTargets
        (preHandoff cfg s obj).watchedPatterns)
      (preHandoff cfg s obj)
      (todoDel_nodup eng (metaKey obj) obj _ _)
  exact ⟨d1, d2, ht1, hi1, ht2, hp2, hcond⟩

end KR

namespace KR

theorem pushInstallLoop_spec (cfg : Config) (eng : RegexEngine) (obj : Meta) :
    ∀ (l : List String) (s : RState),
      ∃ d, StepSpec cfg s (pushInstallLoop cfg eng obj l s) d ∧
        d.filter isPullAct = [] ∧ d.filter isUpdAct = [] := by
  intro l
  induction l with
  | nil =>
    intro s
    exact ⟨[], stepSpec_refl cfg s, rfl, rfl⟩
  | cons t rest ih =>
    intro s
    rw [pushInstallLoop]
    obtain ⟨d1, hs1, -, hp1, hu1⟩ := installObject_spec cfg eng s t none obj
    obtain ⟨d2, hs2, hp2, hu2⟩ := ih (installObject cfg eng s t none obj).1
    exact ⟨d2 ++ d1, stepSpec_trans (stepSpec_of_prim hs1) hs2,
      by simp [List.filter_append, hp1, hp2],
      by simp [List.filter_append, hu1, hu2]⟩

theorem rtnInstallLoop_spec (cfg : Config) (eng : RegexEngine) (obj : Meta) :
    ∀ (l cur : List String) (s : RState),
      ∃ d, StepSpec cfg s (rtnInstallLoop cfg eng obj l cur s).2 d ∧
        d.filter isPullAct = [] ∧ d.filter isUpdAct = [] ∧
        (rtnInstallLoop cfg eng obj l cur s).1 = cur ++ l := by
  intro l
  induction l with
  | nil =>
    intro cur s
    exact ⟨[], stepSpec_refl cfg s, rfl, rfl, by simp [rtnInstallLoop]⟩
  | cons t rest ih =>
    intro cur s
    rw [rtnInstallLoop]
    obtain ⟨d1, hs1, -, hp1, hu1⟩ := installObject_spec cfg eng s t none obj
    obtain ⟨d2, hs2, hp2, hu2, hcur⟩ :=
      ih (cur ++ [t]) (installObject cfg eng s t none obj).1
    exact ⟨d2 ++ d1, stepSpec_trans (stepSpec_of_prim hs1) hs2,
      by simp [List.filter_append, hp1, hp2],
      by simp [List.filter_append, hu1, hu2],
      by rw [hcur]; simp⟩

theorem oldCleanLoop_spec (cfg : Config) (eng : RegexEngine) (obj : Meta)
    (ts : List String) (ps : List TargetPattern) :
    ∀ (l : List String) (prev : String) (s : RState),
      ∃ d, StepSpec cfg s (oldCleanLoop cfg eng obj ts ps l prev s) d ∧
        d.filter isPullAct = [] ∧ d.filter isInstallAct = [] ∧
        d.filter isUpdAct = [] := by
  intro l
  induction l with
  | nil =>
    intro prev s
    exact ⟨[], stepSpec_refl cfg s, rfl, rfl, rfl⟩
  | cons t rest ih =>
    intro prev s
    rw [oldCleanLoop]
    split
    · exact ih prev s
    · split
      · exact ih t s
      · split
        · exact ih t s
        · obtain ⟨d1, hs1, hi1, hp1, hu1⟩ := deleteObject_spec cfg s t obj
          obtain ⟨d2, hs2, hp2, hi2, hu2⟩ := ih t (deleteObject cfg s t obj).1
          exact ⟨d2 ++ d1, stepSpec_trans (stepSpec_of_prim hs1) hs2,
            by simp [List.filter_append, hp1, hp2],
            by simp [List.filter_append, hi1, hi2],
            by simp [List.filter_append, hu1, hu2]⟩

theorem updateDependentsLoop_spec (cfg : Config) (eng : RegexEngine)
    (srcObj : Meta) (key : String) :
    ∀ (l : List String) (prev : String) (acc : List String) (s : RState),
      ∃ d, StepSpec cfg s
          (updateDependentsLoop cfg eng srcObj key l prev acc s).2 d ∧
        d.filter isPullAct = [] ∧ d.filter isInstallAct = [] ∧
        ∀ x ∈ (updateDependentsLoop cfg eng srcObj key l prev acc s).1,
          x ∈ acc ∨ x ∈ l := by
  intro l
  induction l with
  | nil =>
    intro prev acc s
    exact ⟨[], stepSpec_refl cfg s, rfl, rfl, fun x hx => .inl hx⟩
  | cons dk rest ih =>
    intro prev acc s
    rw [updateDependentsLoop]
    split
    · obtain ⟨d, hs, hp, hi, hmem⟩ := ih prev acc s
      exact ⟨d, hs, hp, hi,
        fun x hx => ((hmem x hx).imp id (List.mem_cons_of_mem _))⟩
    · rcases requireFromStore cfg s dk with e | tm <;> (try dsimp only)
      · obtain ⟨d, hs, hp, hi, hmem⟩ := ih dk acc s
        exact ⟨d, hs, hp, hi,
          fun x hx => ((hmem x hx).imp id (List.mem_cons_of_mem _))⟩
      · split
        · obtain ⟨d, hs, hp, hi, hmem⟩ := ih dk acc s
          exact ⟨d, hs, hp, hi,
            fun x hx => ((hmem x hx).imp id (List.mem_cons_of_mem _))⟩
        · obtain ⟨d1, hs1, hi1, hp1⟩ := replicateObject_spec cfg eng s tm srcObj
          obtain ⟨d2, hs2, hp2, hi2, hmem⟩ :=
            ih dk (acc ++ [dk]) (replicateObject cfg eng s tm srcObj).1
          refine ⟨d2 ++ d1, stepSpec_trans (stepSpec_of_prim hs1) hs2,
            by simp [List.filter_append, hp1, hp2],
            by simp [List.filter_append, hi1, hi2], ?_⟩
          intro x hx
          rcases hmem x hx with hx' | hx'
          · rcases List.mem_append.mp hx' with h' | h'
            · exact .inl h'
            · simp at h'
              subst h'
              exact .inr (by simp)
          · exact .inr (List.mem_cons_of_mem _ hx')

theorem updateDependents_spec (cfg : Config) (eng : RegexEngine)
    (s : RState) (obj : Meta) (replicas : List String) :
    ∃ d, (updateDependents cfg eng s obj replicas).trace = d ++ s.trace ∧
      d.filter isPullAct = [] ∧ d.filter isInstallAct = [] ∧
      (updateDependents cfg eng s obj replicas).targetsTo = s.targetsTo ∧
      (updateDependents cfg eng s obj replicas).watchedTargets =
        s.watchedTargets ∧
      (updateDependents cfg eng s obj replicas).watchedPatterns =
        s.watchedPatterns ∧
      (updateDependents cfg eng s obj replicas).namespaces = s.namespaces ∧
      (GoodStore cfg s → GoodApi cfg s →
        GoodStore cfg (updateDependents cfg eng s obj replicas) ∧
        GoodApi cfg (updateDependents cfg eng s obj replicas)) ∧
      ((∃ U, (updateDependents cfg eng s obj replicas).targetsFrom =
          aset s.targetsFrom (metaKey obj) U ∧ ∀ x ∈ U, x ∈ replicas) ∨
       (updateDependents cfg eng s obj replicas).targetsFrom =
          adel s.targetsFrom (metaKey obj)) := by
  obtain ⟨d, hs, hp, hi, hmem⟩ :=
    updateDependentsLoop_spec cfg eng obj (metaKey obj)
      (sortStrings replicas) "" [] s
  obtain ⟨⟨f1, f2, f3, f4, f5⟩, ht, hg⟩ := hs
  rw [updateDependents]
  rcases hloop : updateDependentsLoop cfg eng obj (metaKey obj)
      (sortStrings replicas) "" [] s with ⟨upd, s2⟩
  rw [hloop] at ht f1 f2 f3 f4 f5 hg hmem
  dsimp only at ht f1 f2 f3 f4 f5 hg hmem ⊢
  split
  · refine ⟨d, ht, hp, hi, f2, f3, f4, f5, hg, .inl ⟨upd, by rw [f1], ?_⟩⟩
    intro x hx
    rcases hmem x hx with hx' | hx'
    · cases hx'
    · exact mem_sortStrings.mp hx'
  · exact ⟨d, ht, hp, hi, f2, f3, f4, f5, hg, .inr (by rw [f1])⟩

end KR

namespace KR

theorem objectAddedTail_push_spec (cfg : Config) (eng : RegexEngine)
    (s : RState) (meta : Meta) (ts : List String)
    (ps : List TargetPattern) :
    ∃ d, (objectAddedTail cfg eng s meta (some (ts, ps))).trace =
        d ++ s.trace ∧
      d.filter isPullAct = [] ∧
      (ts ≠ [] →
        alookup (objectAddedTail cfg eng s meta (some (ts, ps))).watchedTargets
          (metaKey meta) = some ts) := by
  rw [objectAddedTail]
  (try dsimp only)
  by_cases hts : ts ≠ [] <;> by_cases hps : ps ≠ []
  · rw [if_pos hts, if_pos hps]
    split
    · obtain ⟨d, hs, hp, -⟩ := pushInstallLoop_spec cfg eng meta _ _
      refine ⟨d, hs.2.1, hp, fun _ => ?_⟩
      rw [hs.1.2.2.1]
      exact alookup_aset_self _ _ _
    · exact ⟨[], rfl, rfl, fun _ => alookup_aset_self _ _ _⟩
  · rw [if_pos hts, if_neg hps]
    split
    · obtain ⟨d, hs, hp, -⟩ := pushInstallLoop_spec cfg eng meta _ _
      refine ⟨d, hs.2.1, hp, fun _ => ?_⟩
      rw [hs.1.2.2.1]
      exact alookup_aset_self _ _ _
    · exact ⟨[], rfl, rfl, fun _ => alookup_aset_self _ _ _⟩
  · rw [if_neg hts, if_pos hps]
    split
    · obtain ⟨d, hs, hp, -⟩ := pushInstallLoop_spec cfg eng meta _ _
      exact ⟨d, hs.2.1, hp, fun h => absurd h hts⟩
    · exact ⟨[], rfl, rfl, fun h => absurd h hts⟩
  · rw [if_neg hts, if_neg hps]
    split
    · obtain ⟨d, hs, hp, -⟩ := pushInstallLoop_spec cfg eng meta _ _
      exact ⟨d, hs.2.1, hp, fun h => absurd h hts⟩
    · exact ⟨[], rfl, rfl, fun h => absurd h hts⟩

end KR

namespace KR

/-- `ObjectAdded` on an object without `replicated-by` reduces to the
push/pull tail after a pull-free prefix of cleanup work. -/
theorem objectAdded_noBy_decomp (cfg : Config) (eng : RegexEngine)
    (s : RState) (obj : Meta) (tsps : Option (List String × List TargetPattern))
    (hUnk : unknownAnns cfg obj.ann = [])
    (hBy : alookup obj.ann (annBy cfg) = none)
    (hgrt : getReplicationTargets cfg eng
      (lookupD s.watchedPatterns (metaKey obj)) obj = .ok tsps) :
    ∃ s' d', objectAdded cfg eng s obj =
        objectAddedTail cfg eng s' obj tsps ∧
      s'.trace = d' ++ s.trace ∧ d'.filter isPullAct = [] := by
  rw [objectAdded]
  rw [if_neg (by simp [hUnk])]
  rw [hgrt]
  dsimp only
  rcases hold : alookup s.targetsTo (metaKey obj) with _ | old <;> dsimp only
  · rcases hfrom : alookup s.targetsFrom (metaKey obj) with _ | replicas <;>
      dsimp only
    · rw [hBy]
      exact ⟨_, [], rfl, rfl, rfl⟩
    · obtain ⟨d, ht, hp, -⟩ :=
        updateDependents_spec cfg eng
          { s with targetsTo := adel s.targetsTo (metaKey obj),
                   watchedTargets := adel s.watchedTargets (metaKey obj),
                   watchedPatterns := adel s.watchedPatterns (metaKey obj) }
          obj replicas
      rw [hBy]
      exact ⟨_, d, rfl, ht, hp⟩
  · obtain ⟨dc, hsc, hcp, -, -⟩ :=
      oldCleanLoop_spec cfg eng obj ((tsps.map (·.1)).getD [])
        ((tsps.map (·.2)).getD []) (sortStrings old) "" s
    rcases hfrom : alookup (oldCleanLoop cfg eng obj ((tsps.map (·.1)).getD [])
        ((tsps.map (·.2)).getD []) (sortStrings old) "" s).targetsFrom
        (metaKey obj) with _ | replicas <;> rw [hfrom] <;> dsimp only
    · rw [hBy]
      refine ⟨_, dc, rfl, ?_, hcp⟩
      exact hsc.2.1
    · obtain ⟨d, ht, hp, -⟩ :=
        updateDependents_spec cfg eng
          { oldCleanLoop cfg eng obj ((tsps.map (·.1)).getD [])
              ((tsps.map (·.2)).getD []) (sortStrings old) "" s with
              targetsTo := adel (oldCleanLoop cfg eng obj
                ((tsps.map (·.1)).getD []) ((tsps.map (·.2)).getD [])
                (sortStrings old) "" s).targetsTo (metaKey obj),
              watchedTargets := adel (oldCleanLoop cfg eng obj
                ((tsps.map (·.1)).getD []) ((tsps.map (·.2)).getD [])
                (sortStrings old) "" s).watchedTargets (metaKey obj),
              watchedPatterns := adel (oldCleanLoop cfg eng obj
                ((tsps.map (·.1)).getD []) ((tsps.map (·.2)).getD [])
                (sortStrings old) "" s).watchedPatterns (metaKey obj) }
          obj replicas
      rw [hBy]
      refine ⟨_, d ++ dc, rfl, ?_, by simp [List.filter_append, hp, hcp]⟩
      rw [ht]
      dsimp only
      rw [hsc.2.1, List.append_assoc]

end KR

namespace KR

/-- C6 counterexample: an object whose `getReplicationTargets` resolution
yields the literal target list `["c/z"]`, yet `ObjectAdded` performs a pull
pass on the same invocation (the `replicated-by` re-entry path discards the
resolved targets and falls through to the pull semantics). -/
theorem pushPullExclusiveClaimFalse :
    getReplicationTargets ⟨false, false, [], "", "now"⟩
        ⟨fun _ => true, fun _ _ => false⟩ []
        ⟨"b", "t", "3",
          [("replicated-by", "s/src"), ("replicate-to", "c/z")], []⟩ =
      .ok (some (["c/z"], [])) ∧
    (objectAdded ⟨false, false, [], "", "now"⟩
        ⟨fun _ => true, fun _ _ => false⟩
        { objects :=
            [⟨"s", "src", "9",
               [("replication-allowed", "true"), ("replicate-to", "b/t")], []⟩,
             ⟨"d", "d", "7", [("replication-allowed", "true")], []⟩,
             ⟨"b", "t", "3",
               [("replicated-by", "s/src"), ("replicate-to", "c/z")], []⟩],
          namespaces := ["b", "c"], targetsFrom := [], targetsTo := [],
          watchedTargets := [], watchedPatterns := [],
          api := [some ⟨"b", "t", "4",
                    [("replicated-by", "s/src"), ("replicate-from", "d/d")],
                    []⟩,
                  some ⟨"b", "t", "5", [], []⟩],
          trace := [] }
        ⟨"b", "t", "3",
          [("replicated-by", "s/src"), ("replicate-to", "c/z")], []⟩).trace.filter
      isPullAct = [.pullPass "b/t"] := by
  exact ⟨rfl, rfl⟩

end KR

namespace KR

/-- C6 (amended): for an object carrying no `replicated-by` annotation and
no unknown annotations, if `getReplicationTargets` resolves to a non-nil
pair of literal targets and patterns then `ObjectAdded` performs no pull
pass at all, and when the literal list is non-empty it is recorded in
`watchedTargets` by the push semantics before the handler returns. -/
theorem pushPullExclusive (cfg : Config) (eng : RegexEngine) (s : RState)
    (obj : Meta) (ts : List String) (ps : List TargetPattern)
    (hUnk : unknownAnns cfg obj.ann = [])
    (hBy : alookup obj.ann (annBy cfg) = none)
    (hgrt : getReplicationTargets cfg eng
      (lookupD s.watchedPatterns (metaKey obj)) obj = .ok (some (ts, ps))) :
    (objectAdded cfg eng s obj).trace.filter isPullAct =
      s.trace.filter isPullAct ∧
    (ts ≠ [] →
      alookup (objectAdded cfg eng s obj).watchedTargets (metaKey obj) =
        some ts) := by
  obtain ⟨s', d', heq, ht, hp⟩ :=
    objectAdded_noBy_decomp cfg eng s obj (some (ts, ps)) hUnk hBy hgrt
  obtain ⟨dT, htT, hpT, hw⟩ := objectAddedTail_push_spec cfg eng s' obj ts ps
  rw [heq]
  refine ⟨?_, hw⟩
  rw [htT, List.filter_append, hpT, List.nil_append, ht,
    List.filter_append, hp, List.nil_append]

/-- Witness for the amended C6 theorem at a concrete input. -/
theorem pushPullExclusiveWitness :
    (objectAdded ⟨false, false, [], "", "now"⟩
        ⟨fun _ => true, fun _ _ => false⟩
        { objects := [], namespaces := ["a"], targetsFrom := [],
          targetsTo := [], watchedTargets := [], watchedPatterns := [],
          api := [], trace := [] }
        ⟨"d", "x", "1", [("replicate-to", "a/b")], []⟩).trace.filter
      isPullAct = List.filter isPullAct [] ∧
    (["a/b"] ≠ [] →
      alookup (objectAdded ⟨false, false, [], "", "now"⟩
          ⟨fun _ => true, fun _ _ => false⟩
          { objects := [], namespaces := ["a"], targetsFrom := [],
            targetsTo := [], watchedTargets := [], watchedPatterns := [],
            api := [], trace := [] }
          ⟨"d", "x", "1", [("replicate-to", "a/b")], []⟩).watchedTargets
        "d/x" = some ["a/b"]) :=
  pushPullExclusive ⟨false, false, [], "", "now"⟩
    ⟨fun _ => true, fun _ _ => false⟩
    { objects := [], namespaces := ["a"], targetsFrom := [],
      targetsTo := [], watchedTargets := [], watchedPatterns := [],
      api := [], trace := [] }
    ⟨"d", "x", "1", [("replicate-to", "a/b")], []⟩ ["a/b"] []
    (by rfl) (by rfl) (by rfl)

end KR

namespace KR

/-! ## The graph self-reference invariant -/

/-- No key appears in its own `targetsTo` nor `targetsFrom` slice. -/
def GoodGraph (s : RState) : Prop :=
  (∀ k, k ∉ lookupD s.targetsTo k) ∧ (∀ k, k ∉ lookupD s.targetsFrom k)

/-- The combined invariant threaded through the handlers. -/
def GoodAll (cfg : Config) (s : RState) : Prop :=
  GoodGraph s ∧ GoodStore cfg s ∧ GoodApi cfg s

theorem lookupD_aset_self {α : Type} (m : List (String × List α))
    (k : String) (v : List α) : lookupD (aset m k v) k = v := by
  rw [lookupD, alookup_aset_self]
  rfl

theorem lookupD_aset_ne {α : Type} (m : List (String × List α))
    {k k' : String} (v : List α) (h : k' ≠ k) :
    lookupD (aset m k v) k' = lookupD m k' := by
  rw [lookupD, alookup_aset_ne _ v h, lookupD]

theorem lookupD_adel_self {α : Type} (m : List (String × List α))
    (k : String) : lookupD (adel m k) k = [] := by
  rw [lookupD, alookup_adel_self]
  rfl

theorem lookupD_adel_ne {α : Type} (m : List (String × List α))
    {k k' : String} (h : k' ≠ k) : lookupD (adel m k) k' = lookupD m k' := by
  rw [lookupD, alookup_adel_ne _ h, lookupD]

theorem goodG_aset {m : List (String × List String)} {k : String}
    {v : List String} (h : ∀ j, j ∉ lookupD m j) (hv : k ∉ v) :
    ∀ j, j ∉ lookupD (aset m k v) j := by
  intro j
  by_cases hj : j = k
  · subst hj
    rw [lookupD_aset_self]
    exact hv
  · rw [lookupD_aset_ne _ _ hj]
    exact h j

theorem goodG_adel {m : List (String × List String)} {k : String}
    (h : ∀ j, j ∉ lookupD m j) :
    ∀ j, j ∉ lookupD (adel m k) j := by
  intro j
  by_cases hj : j = k
  · subst hj
    rw [lookupD_adel_self]
    exact List.not_mem_nil j
  · rw [lookupD_adel_ne _ hj]
    exact h j

theorem requireFromStore_key {cfg : Config} {s : RState} {k : String}
    {m : Meta} (h : requireFromStore cfg s k = .ok m) :
    m ∈ s.objects ∧ metaKey m = k := by
  rw [requireFromStore] at h
  rcases hg : getFromStore cfg s k with e | mo <;> rw [hg] at h <;>
    (try dsimp only at h)
  · cases h
  · rcases mo with _ | m' <;> (try dsimp only at h)
    · cases h
    · cases h
      exact getFromStore_key hg

/-- Shared form of the literal-target hygiene of `getReplicationTargets`:
the resolved literal list never contains the object's own key. -/
theorem grt_lits_good (cfg : Config) (eng : RegexEngine)
    (cachePats : List TargetPattern) (obj : Meta)
    (ts : List String) (ps : List TargetPattern)
    (h : getReplicationTargets cfg eng cachePats obj = .ok (some (ts, ps))) :
    ts.Nodup ∧ metaKey obj ∉ ts := by
  rw [getReplicationTargets] at h
  split at h
  · exact absurd h (by simp)
  · rcases hto : (match alookup obj.ann (annTo cfg) with
        | none => Except.ok ([obj.name], [])
        | some s => grtToLoop (splitChar ',' s) [] [] :
        Except String (List String × List String)) with e | ⟨names, qualified⟩ <;>
      rw [hto] at h <;> dsimp only at h
    · cases h
    · rcases htn : (match alookup obj.ann (annToNs cfg) with
          | none => Except.ok [obj.ns]
          | some s => grtNsSplit (splitChar ',' s) [] :
          Except String (List String)) with e | namespaces <;>
        rw [htn] at h <;> dsimp only at h
      · cases h
      · rcases hns : grtNsLoop eng names namespaces
            { targets := [], pats := [], seen := [metaKey obj],
              cache := cachePats.map (·.pat) } with e | st1 <;>
          rw [hns] at h <;> dsimp only at h
        · cases h
        · rcases hq : grtQualLoop eng qualified st1 with e | st2 <;>
            rw [hq] at h <;> dsimp only at h
          · cases h
          · have hqn : qualified.Nodup := by
              rcases hto0 : alookup obj.ann (annTo cfg) with _ | s <;>
                rw [hto0] at hto
              · cases hto
                exact List.nodup_nil
              · exact (grtToLoop_nodup List.nodup_nil List.nodup_nil hto).2
            have hinv1 : GrtInv (metaKey obj)
                { targets := [], pats := [], seen := [metaKey obj],
                  cache := cachePats.map (·.pat) } := by
              refine ⟨List.nodup_nil, ?_, by simp, by simp⟩
              intro t ht
              simp at ht
            obtain ⟨g1, g2, g3, g4⟩ := grtNsLoop_inv hinv1 hns
            have := grtQualLoop_inv g1 g4 g3 (fun q _ hq' => g2 q hq') hqn hq
            injection h with h
            injection h with h
            injection h with h1 h2
            subst h1
            exact this

theorem pushPatOne_key {key : String} :
    ∀ (l seen acc : List String), key ∈ seen → key ∉ acc →
      key ∈ (pushPatOne l seen acc).1 ∧ key ∉ (pushPatOne l seen acc).2 := by
  intro l
  induction l with
  | nil =>
    intro seen acc h1 h2
    exact ⟨h1, h2⟩
  | cons t rest ih =>
    intro seen acc h1 h2
    rw [pushPatOne]
    split
    · exact ih seen acc h1 h2
    · rename_i hc
      refine ih (seen ++ [t]) (acc ++ [t]) (List.mem_append_left _ h1) ?_
      intro hk
      rcases List.mem_append.mp hk with hk | hk
      · exact h2 hk
      · simp only [List.mem_singleton] at hk
        subst hk
        exact hc (by simpa using h1)

theorem pushPatLoop_key {eng : RegexEngine} {nss : List String}
    {key : String} :
    ∀ (ps : List TargetPattern) (seen acc : List String),
      key ∈ seen → key ∉ acc →
      key ∉ (pushPatLoop eng nss ps seen acc).2 := by
  intro ps
  induction ps with
  | nil =>
    intro seen acc _ h2
    exact h2
  | cons p rest ih =>
    intro seen acc h1 h2
    rw [pushPatLoop]
    obtain ⟨hs, ha⟩ := pushPatOne_key (patTargets eng p nss) seen acc h1 h2
    exact ih _ _ hs ha

end KR

namespace KR

theorem goodAll_of_step {cfg : Config} {s out : RState} {d : List Action}
    (h : StepSpec cfg s out d) (hg : GoodAll cfg s) : GoodAll cfg out := by
  obtain ⟨⟨f1, f2, -, -, -⟩, -, hgood⟩ := h
  obtain ⟨⟨g1, g2⟩, hs, ha⟩ := hg
  obtain ⟨hs', ha'⟩ := hgood hs ha
  exact ⟨⟨by rw [f2]; exact g1, by rw [f1]; exact g2⟩, hs', ha'⟩

theorem objectAddedTail_good (cfg : Config) (eng : RegexEngine)
    (s : RState) (meta : Meta)
    (tsps : Option (List String × List TargetPattern))
    (hts : ∀ ts ps, tsps = some (ts, ps) → metaKey meta ∉ ts)
    (hself : ¬selfRef cfg meta)
    (hg : GoodAll cfg s) :
    GoodAll cfg (objectAddedTail cfg eng s meta tsps) := by
  rw [objectAddedTail.eq_def]
  rcases tsps with _ | ⟨ts, ps⟩ <;> dsimp only
  · -- pull semantics
    rcases hra : resolveAnn meta (annFrom cfg) with _ | val <;> dsimp only
    · exact hg
    · have hvk : val ≠ metaKey meta := by
        intro he
        exact hself (by rw [selfRef, hra, he])
      obtain ⟨⟨g1, g2⟩, hs, ha⟩ := hg
      have hg2 : GoodAll cfg
          { emit s (.pullPass (metaKey meta)) with
              targetsFrom := aset (emit s (.pullPass (metaKey meta))).targetsFrom
                val (lookupD (emit s (.pullPass (metaKey meta))).targetsFrom val
                  ++ [metaKey meta]) } := by
        refine ⟨⟨g1, goodG_aset g2 ?_⟩, hs, ha⟩
        intro hmem
        rcases List.mem_append.mp hmem with hmem | hmem
        · exact g2 val hmem
        · simp only [List.mem_singleton] at hmem
          exact hvk hmem
      rcases getFromStore cfg
          { emit s (.pullPass (metaKey meta)) with
              targetsFrom := aset (emit s (.pullPass (metaKey meta))).targetsFrom
                val (lookupD (emit s (.pullPass (metaKey meta))).targetsFrom val
                  ++ [metaKey meta]) } val with e | mo <;> (try dsimp only)
      · exact hg2
      · rcases mo with _ | srcObj <;> (try dsimp only)
        · obtain ⟨d, hspec, -, -, -⟩ := doClearObject_spec cfg _ meta
          exact goodAll_of_step (stepSpec_of_prim hspec) hg2
        · obtain ⟨d, hspec, -, -⟩ := replicateObject_spec cfg eng _ meta srcObj
          exact goodAll_of_step (stepSpec_of_prim hspec) hg2
  · -- push semantics
    have hkey : metaKey meta ∉ ts := hts ts ps rfl
    have hkey1 : metaKey meta ∉
        ts.filter (fun t => s.namespaces.contains (nsPart t)) :=
      fun hmem => hkey (List.mem_of_mem_filter hmem)
    obtain ⟨⟨g1, g2⟩, hs, ha⟩ := hg
    by_cases hts' : ts ≠ [] <;> by_cases hps : ps ≠ []
    · rw [if_pos hts', if_pos hps]
      split
      · obtain ⟨d, hspec, -, -⟩ := pushInstallLoop_spec cfg eng meta _ _
        refine goodAll_of_step hspec ⟨⟨goodG_aset g1 ?_, g2⟩, hs, ha⟩
        exact pushPatLoop_key ps _ _ (by simp) hkey1
      · exact ⟨⟨g1, g2⟩, hs, ha⟩
    · rw [if_pos hts', if_neg hps]
      split
      · obtain ⟨d, hspec, -, -⟩ := pushInstallLoop_spec cfg eng meta _ _
        exact goodAll_of_step hspec ⟨⟨goodG_aset g1 hkey1, g2⟩, hs, ha⟩
      · exact ⟨⟨g1, g2⟩, hs, ha⟩
    · rw [if_neg hts', if_pos hps]
      split
      · obtain ⟨d, hspec, -, -⟩ := pushInstallLoop_spec cfg eng meta _ _
        refine goodAll_of_step hspec ⟨⟨goodG_aset g1 ?_, g2⟩, hs, ha⟩
        exact pushPatLoop_key ps _ _ (by simp) hkey1
      · exact ⟨⟨g1, g2⟩, hs, ha⟩
    · rw [if_neg hts', if_neg hps]
      split
      · obtain ⟨d, hspec, -, -⟩ := pushInstallLoop_spec cfg eng meta _ _
        exact goodAll_of_step hspec ⟨⟨goodG_aset g1 hkey1, g2⟩, hs, ha⟩
      · exact ⟨⟨g1, g2⟩, hs, ha⟩

end KR

namespace KR

/-- Good-state preservation for the tail of `ObjectAdded` starting at the
`replicated-by` dispatch. -/
theorem objectAdded_reentry_good (cfg : Config) (eng : RegexEngine)
    (sC : RState) (obj : Meta)
    (tsps : Option (List String × List TargetPattern))
    (hts : ∀ ts ps, tsps = some (ts, ps) → metaKey obj ∉ ts)
    (hself : ¬selfRef cfg obj) (hg : GoodAll cfg sC) :
    GoodAll cfg
      (match alookup obj.ann (annBy cfg) with
       | some val =>
         match getFromStore cfg sC val with
         | .error _ => sC
         | .ok none => (doDeleteObject cfg sC obj).1
         | .ok (some srcMeta) =>
           match isReplicatedTo cfg eng (lookupD sC.watchedPatterns val)
               srcMeta obj with
           | .error _ => sC
           | .ok false => (doDeleteObject cfg sC obj).1
           | .ok true =>
             let (s, err) := installObject cfg eng sC "" (some obj) srcMeta
             if err then s
             else
               match requireFromStore cfg s (metaKey obj) with
               | .error _ => s
               | .ok m2 => objectAddedTail cfg eng s m2 none
       | none => objectAddedTail cfg eng sC obj tsps) := by
  rcases alookup obj.ann (annBy cfg) with _ | val <;> dsimp only
  · exact objectAddedTail_good cfg eng sC obj tsps hts hself hg
  · rcases getFromStore cfg sC val with e | mo <;> (try dsimp only)
    · exact hg
    · rcases mo with _ | srcMeta <;> (try dsimp only)
      · obtain ⟨d, hd, -, -, -⟩ := doDeleteObject_spec cfg sC obj
        exact goodAll_of_step (stepSpec_of_prim hd) hg
      · rcases isReplicatedTo cfg eng (lookupD sC.watchedPatterns val)
            srcMeta obj with e | b <;> (try dsimp only)
        · exact hg
        · cases b <;> (try dsimp only)
          · obtain ⟨d, hd, -, -, -⟩ := doDeleteObject_spec cfg sC obj
            exact goodAll_of_step (stepSpec_of_prim hd) hg
          · rcases hins : installObject cfg eng sC "" (some obj) srcMeta
              with ⟨sI, err⟩
            (try rw [hins])
            dsimp only
            have hgI : GoodAll cfg sI := by
              obtain ⟨d, hd, -, -⟩ :=
                installObject_spec cfg eng sC "" (some obj) srcMeta
              rw [hins] at hd
              exact goodAll_of_step (stepSpec_of_prim hd) hg
            cases err <;> (try dsimp only)
            · rcases hreq : requireFromStore cfg sI (metaKey obj)
                with e | m2 <;> (try rw [hreq]) <;> (try dsimp only)
              · exact hgI
              · refine objectAddedTail_good cfg eng sI m2 none
                  (fun ts ps h => absurd h (by simp)) ?_ hgI
                obtain ⟨hm2, -⟩ := requireFromStore_key hreq
                exact hgI.2.1 m2 hm2
            · exact hgI

end KR

namespace KR

/-- `ObjectAdded` preserves the combined invariant when the added object
is not self-referential. -/
theorem objectAdded_good (cfg : Config) (eng : RegexEngine) (s : RState)
    (obj : Meta) (hself : ¬selfRef cfg obj) (hg : GoodAll cfg s) :
    GoodAll cfg (objectAdded cfg eng s obj) := by
  rw [objectAdded]
  split
  · exact hg
  · rcases hgrt : getReplicationTargets cfg eng
        (lookupD s.watchedPatterns (metaKey obj)) obj with e | tsps <;>
      (try rw [hgrt]) <;> (try dsimp only)
    · exact hg
    · have hts : ∀ ts ps, tsps = some (ts, ps) → metaKey obj ∉ ts := by
        intro ts ps h
        subst h
        exact (grt_lits_good cfg eng _ obj ts ps hgrt).2
      rcases hold : alookup s.targetsTo (metaKey obj) with _ | old <;>
        (try dsimp only)
      · obtain ⟨⟨g1, g2⟩, hs, ha⟩ := hg
        rcases hfrom : alookup s.targetsFrom (metaKey obj) with _ | replicas <;>
          (try rw [hfrom]) <;> (try dsimp only)
        · exact objectAdded_reentry_good cfg eng _ obj tsps hts hself
            ⟨⟨goodG_adel g1, g2⟩, hs, ha⟩
        · have hkr : metaKey obj ∉ replicas := by
            have h2 := g2 (metaKey obj)
            rw [lookupD, hfrom] at h2
            exact h2
          obtain ⟨d, -, -, -, fTT, -, -, -, hgood, hTF⟩ :=
            updateDependents_spec cfg eng
              { s with targetsTo := adel s.targetsTo (metaKey obj),
                       watchedTargets := adel s.watchedTargets (metaKey obj),
                       watchedPatterns := adel s.watchedPatterns (metaKey obj) }
              obj replicas
          obtain ⟨hs', ha'⟩ := hgood hs ha
          refine objectAdded_reentry_good cfg eng _ obj tsps hts hself
            ⟨⟨?_, ?_⟩, hs', ha'⟩
          · rw [fTT]
            exact goodG_adel g1
          · rcases hTF with ⟨U, hU, hUm⟩ | hTF
            · rw [hU]
              exact goodG_aset g2 (fun hmem => hkr (hUm _ hmem))
            · rw [hTF]
              exact goodG_adel g2
      · obtain ⟨dc, hsc, -, -, -⟩ :=
          oldCleanLoop_spec cfg eng obj ((tsps.map (·.1)).getD [])
            ((tsps.map (·.2)).getD []) (sortStrings old) "" s
        obtain ⟨⟨g1, g2⟩, hs, ha⟩ := goodAll_of_step hsc hg
        rcases hfrom : alookup (oldCleanLoop cfg eng obj
            ((tsps.map (·.1)).getD []) ((tsps.map (·.2)).getD [])
            (sortStrings old) "" s).targetsFrom (metaKey obj)
          with _ | replicas <;> (try rw [hfrom]) <;> (try dsimp only)
        · exact objectAdded_reentry_good cfg eng _ obj tsps hts hself
            ⟨⟨goodG_adel g1, g2⟩, hs, ha⟩
        · have hkr : metaKey obj ∉ replicas := by
            have h2 := g2 (metaKey obj)
            rw [lookupD, hfrom] at h2
            exact h2
          obtain ⟨d, -, -, -, fTT, -, -, -, hgood, hTF⟩ :=
            updateDependents_spec cfg eng
              { oldCleanLoop cfg eng obj ((tsps.map (·.1)).getD [])
                  ((tsps.map (·.2)).getD []) (sortStrings old) "" s with
                  targetsTo := adel (oldCleanLoop cfg eng obj
                    ((tsps.map (·.1)).getD []) ((tsps.map (·.2)).getD [])
                    (sortStrings old) "" s).targetsTo (metaKey obj),
                  watchedTargets := adel (oldCleanLoop cfg eng obj
                    ((tsps.map (·.1)).getD []) ((tsps.map (·.2)).getD [])
                    (sortStrings old) "" s).watchedTargets (metaKey obj),
                  watchedPatterns := adel (oldCleanLoop cfg eng obj
                    ((tsps.map (·.1)).getD []) ((tsps.map (·.2)).getD [])
                    (sortStrings old) "" s).watchedPatterns (metaKey obj) }
              obj replicas
          obtain ⟨hs', ha'⟩ := hgood hs ha
          refine objectAdded_reentry_good cfg eng _ obj tsps hts hself
            ⟨⟨?_, ?_⟩, hs', ha'⟩
          · rw [fTT]
            exact goodG_adel g1
          · rcases hTF with ⟨U, hU, hUm⟩ | hTF
            · rw [hU]
              exact goodG_aset g2 (fun hmem => hkr (hUm _ hmem))
            · rw [hTF]
              exact goodG_adel g2

end KR

namespace KR

theorem handOffLoop_good (cfg : Config) (eng : RegexEngine) (key : String)
    (meta : Meta) :
    ∀ (todo : List String) (s : RState), GoodAll cfg s →
      GoodAll cfg (handOffLoop cfg eng key meta todo s) := by
  intro todo
  induction todo with
  | nil =>
    intro s hg
    exact hg
  | cons src rest ih =>
    intro s hg
    rw [handOffLoop]
    rcases getFromStore cfg s src with e | mo <;> (try dsimp only)
    · exact ih s hg
    · rcases mo with _ | sm <;> (try dsimp only)
      · exact ih _ ⟨hg.1, hg.2.1, hg.2.2⟩
      · rcases isReplicatedTo cfg eng (lookupD s.watchedPatterns src) sm meta
          with e | b <;> (try dsimp only)
        · exact ih s hg
        · cases b <;> (try dsimp only)
          · exact ih s hg
          · obtain ⟨d, hd, -, -⟩ := installObject_spec cfg eng s key none sm
            exact goodAll_of_step (stepSpec_of_prim hd) hg

theorem preHandoff_good (cfg : Config) (s : RState) (obj : Meta)
    (hg : GoodAll cfg s) : GoodAll cfg (preHandoff cfg s obj) := by
  rw [preHandoff]
  rcases alookup s.targetsTo (metaKey obj) with _ | ts <;> (try dsimp only)
  · obtain ⟨⟨g1, g2⟩, hs, ha⟩ := hg
    rcases hfrom : alookup s.targetsFrom (metaKey obj) with _ | replicas <;>
      (try rw [hfrom]) <;> (try dsimp only)
    · exact ⟨⟨goodG_adel g1, g2⟩, hs, ha⟩
    · have hkr : metaKey obj ∉ replicas := by
        have h2 := g2 (metaKey obj)
        rw [lookupD, hfrom] at h2
        exact h2
      obtain ⟨d, hstep, -, -, -, hmem⟩ :=
        objectDeletedClearLoop_spec cfg obj (sortStrings replicas) "" []
          { s with targetsTo := adel s.targetsTo (metaKey obj),
                   watchedTargets := adel s.watchedTargets (metaKey obj),
                   watchedPatterns := adel s.watchedPatterns (metaKey obj) }
      rcases hloop : objectDeletedClearLoop cfg obj (sortStrings replicas) "" []
          { s with targetsTo := adel s.targetsTo (metaKey obj),
                   watchedTargets := adel s.watchedTargets (metaKey obj),
                   watchedPatterns := adel s.watchedPatterns (metaKey obj) }
        with ⟨upd, s2⟩
      rw [hloop] at hstep hmem
      dsimp only at hstep hmem ⊢
      obtain ⟨⟨f1, f2, -, -, -⟩, -, hgood⟩ := hstep
      obtain ⟨hs', ha'⟩ := hgood hs ha
      have hupd : metaKey obj ∉ upd := by
        intro hu
        rcases hmem _ hu with h' | h'
        · cases h'
        · exact hkr (mem_sortStrings.mp h')
      split
      · refine ⟨⟨?_, ?_⟩, hs', ha'⟩
        · rw [f2]
          exact goodG_adel g1
        · rw [show s2.targetsFrom = s.targetsFrom from f1]
          exact goodG_aset g2 hupd
      · refine ⟨⟨?_, ?_⟩, hs', ha'⟩
        · rw [f2]
          exact goodG_adel g1
        · rw [show s2.targetsFrom = s.targetsFrom from f1]
          exact goodG_adel g2
  · obtain ⟨dd, hdel, -, -, -⟩ := delTargetsLoop_spec cfg obj ts s
    obtain ⟨⟨g1, g2⟩, hs, ha⟩ := goodAll_of_step hdel hg
    rcases hfrom : alookup (delTargetsLoop cfg obj ts s).targetsFrom
        (metaKey obj) with _ | replicas <;>
      (try rw [hfrom]) <;> (try dsimp only)
    · exact ⟨⟨goodG_adel g1, g2⟩, hs, ha⟩
    · have hkr : metaKey obj ∉ replicas := by
        have h2 := g2 (metaKey obj)
        rw [lookupD, hfrom] at h2
        exact h2
      obtain ⟨d, hstep, -, -, -, hmem⟩ :=
        objectDeletedClearLoop_spec cfg obj (sortStrings replicas) "" []
          { delTargetsLoop cfg obj ts s with
              targetsTo := adel (delTargetsLoop cfg obj ts s).targetsTo
                (metaKey obj),
              watchedTargets := adel (delTargetsLoop cfg obj ts s).watchedTargets
                (metaKey obj),
              watchedPatterns := adel
                (delTargetsLoop cfg obj ts s).watchedPatterns (metaKey obj) }
      rcases hloop : objectDeletedClearLoop cfg obj (sortStrings replicas) "" []
          { delTargetsLoop cfg obj ts s with
              targetsTo := adel (delTargetsLoop cfg obj ts s).targetsTo
                (metaKey obj),
              watchedTargets := adel (delTargetsLoop cfg obj ts s).watchedTargets
                (metaKey obj),
              watchedPatterns := adel
                (delTargetsLoop cfg obj ts s).watchedPatterns (metaKey obj) }
        with ⟨upd, s2⟩
      rw [hloop] at hstep hmem
      dsimp only at hstep hmem ⊢
      obtain ⟨⟨f1, f2, -, -, -⟩, -, hgood⟩ := hstep
      obtain ⟨hs', ha'⟩ := hgood hs ha
      have hupd : metaKey obj ∉ upd := by
        intro hu
        rcases hmem _ hu with h' | h'
        · cases h'
        · exact hkr (mem_sortStrings.mp h')
      split
      · refine ⟨⟨?_, ?_⟩, hs', ha'⟩
        · rw [f2]
          exact goodG_adel g1
        · rw [show s2.targetsFrom =
              (delTargetsLoop cfg obj ts s).targetsFrom from f1]
          exact goodG_aset g2 hupd
      · refine ⟨⟨?_, ?_⟩, hs', ha'⟩
        · rw [f2]
          exact goodG_adel g1
        · rw [show s2.targetsFrom =
              (delTargetsLoop cfg obj ts s).targetsFrom from f1]
          exact goodG_adel g2

theorem objectDeleted_good (cfg : Config) (eng : RegexEngine) (s : RState)
    (obj : Meta) (hg : GoodAll cfg s) :
    GoodAll cfg (objectDeleted cfg eng s obj) :=
  handOffLoop_good cfg eng (metaKey obj) obj _ _ (preHandoff_good cfg s obj hg)

end KR

namespace KR

theorem rtn_final_good (cfg : Config) (eng : RegexEngine) (s : RState)
    (obj : Meta) (existing : List String)
    (hex : metaKey obj ∉ existing) (hg : GoodAll cfg s) :
    GoodAll cfg
      (match rtnInstallLoop cfg eng obj existing
          (lookupD s.targetsTo (metaKey obj)) s with
       | (current, s2) =>
         { s2 with targetsTo := aset s2.targetsTo (metaKey obj) current }) := by
  rcases hloop : rtnInstallLoop cfg eng obj existing
      (lookupD s.targetsTo (metaKey obj)) s with ⟨cur2, s2⟩
  (try rw [hloop])
  dsimp only
  obtain ⟨d, hstep, -, -, hcur⟩ :=
    rtnInstallLoop_spec cfg eng obj existing
      (lookupD s.targetsTo (metaKey obj)) s
  rw [hloop] at hstep hcur
  dsimp only at hstep hcur
  obtain ⟨⟨f1, f2, -, -, -⟩, -, hgood⟩ := hstep
  obtain ⟨hs', ha'⟩ := hgood hg.2.1 hg.2.2
  refine ⟨⟨?_, ?_⟩, hs', ha'⟩
  · rw [f2]
    refine goodG_aset hg.1.1 ?_
    rw [hcur]
    intro hmem
    rcases List.mem_append.mp hmem with h' | h'
    · exact hg.1.1 (metaKey obj) h'
    · exact hex h'
  · rw [f1]
    exact hg.1.2

theorem replicateToNamespace_good (cfg : Config) (eng : RegexEngine)
    (s : RState) (obj : Meta) (nsName : String) (hg : GoodAll cfg s) :
    GoodAll cfg (replicateToNamespace cfg eng s obj nsName) := by
  rw [replicateToNamespace]
  split
  · exact hg
  · rcases getReplicationTargets cfg eng
        (lookupD s.watchedPatterns (metaKey obj)) obj with e | tsps <;>
      (try dsimp only)
    · exact hg
    · rcases tsps with _ | ⟨ts, ps⟩ <;> (try dsimp only)
      · exact hg
      · split
        · exact hg
        · refine rtn_final_good cfg eng s obj _ ?_ hg
          intro hmem
          have := (List.mem_filter.mp hmem).2
          simp at this

theorem nsAddLoop_good (cfg : Config) (eng : RegexEngine) (nsName : String) :
    ∀ (todo : List String) (s : RState), GoodAll cfg s →
      GoodAll cfg (nsAddLoop cfg eng nsName todo s) := by
  intro todo
  induction todo with
  | nil =>
    intro s hg
    exact hg
  | cons src rest ih =>
    intro s hg
    rw [nsAddLoop]
    rcases getFromStore cfg s src with e | mo <;> (try dsimp only)
    · exact ih s hg
    · rcases mo with _ | sm <;> (try dsimp only)
      · exact ih _ ⟨hg.1, hg.2.1, hg.2.2⟩
      · exact ih _ (replicateToNamespace_good cfg eng s sm nsName hg)

theorem namespaceAdded_good (cfg : Config) (eng : RegexEngine) (s : RState)
    (nsName : String) (hg : GoodAll cfg s) :
    GoodAll cfg (namespaceAdded cfg eng s nsName) :=
  nsAddLoop_good cfg eng nsName _ s hg

end KR

namespace KR

theorem stepEvent_good (cfg : Config) (eng : RegexEngine) (s : RState)
    (ev : Event) (hev : ∀ m, ev = .objectAdded m → ¬selfRef cfg m)
    (hg : GoodAll cfg s) : GoodAll cfg (stepEvent cfg eng s ev) := by
  cases ev with
  | objectAdded m =>
    refine objectAdded_good cfg eng _ m (hev m rfl) ?_
    exact ⟨hg.1, goodUpsert hg.2.1 (hev m rfl), hg.2.2⟩
  | objectDeleted m =>
    refine objectDeleted_good cfg eng _ m ?_
    exact ⟨hg.1, fun x hx => hg.2.1 x (mem_storeDel hx), hg.2.2⟩
  | namespaceAdded ns =>
    exact namespaceAdded_good cfg eng _ ns ⟨hg.1, hg.2.1, hg.2.2⟩

theorem run_good (cfg : Config) (eng : RegexEngine) :
    ∀ (evs : List Event) (s : RState),
      (∀ m, Event.objectAdded m ∈ evs → ¬selfRef cfg m) →
      GoodAll cfg s → GoodAll cfg (run cfg eng s evs) := by
  intro evs
  induction evs with
  | nil =>
    intro s _ hg
    exact hg
  | cons ev rest ih =>
    intro s hev hg
    exact ih (stepEvent cfg eng s ev)
      (fun m hm => hev m (List.mem_cons_of_mem _ hm))
      (stepEvent_good cfg eng s ev
        (fun m he => hev m (he ▸ List.mem_cons_self ev rest)) hg)

end KR

namespace KR

/-- C1 counterexample: from empty maps, a single `ObjectAdded` of an object
whose `replicate-from` annotation resolves to its own key leaves the key
inside its own `targetsFrom` slice — the pull section appends the key to
`targetsFrom[value]` without a self-reference check. -/
theorem graphSelfRefClaimFalse :
    "ns/n" ∈ lookupD (run ⟨false, false, [], "", "now"⟩
        ⟨fun _ => true, fun _ _ => false⟩
        { objects := [], namespaces := [], targetsFrom := [], targetsTo := [],
          watchedTargets := [], watchedPatterns := [], api := [],
          trace := [] }
        [.objectAdded
          ⟨"ns", "n", "1", [("replicate-from", "ns/n")], []⟩]).targetsFrom
      "ns/n" := by
  decide

/-- C1 (amended): starting from empty graph maps, a store and an adapter
stream free of self-referential objects, after any sequence of handler
invocations whose added objects are not self-referential, no key appears
in its own `targetsTo` nor `targetsFrom` slice. The unqualified claim is
false: an object whose `replicate-from` resolves to its own key pollutes
`targetsFrom`. -/
theorem graphSelfRefInvariant (cfg : Config) (eng : RegexEngine)
    (s0 : RState) (evs : List Event) (k : String)
    (hTT : s0.targetsTo = []) (hTF : s0.targetsFrom = [])
    (hst : GoodStore cfg s0) (hapi : GoodApi cfg s0)
    (hev : ∀ m, Event.objectAdded m ∈ evs → ¬selfRef cfg m) :
    k ∉ lookupD (run cfg eng s0 evs).targetsTo k ∧
    k ∉ lookupD (run cfg eng s0 evs).targetsFrom k := by
  have hg0 : GoodAll cfg s0 := by
    refine ⟨⟨?_, ?_⟩, hst, hapi⟩
    · intro j
      rw [hTT]
      exact List.not_mem_nil j
    · intro j
      rw [hTF]
      exact List.not_mem_nil j
  obtain ⟨⟨g1, g2⟩, -, -⟩ := run_good cfg eng evs s0 hev hg0
  exact ⟨g1 k, g2 k⟩

/-- Witness for the amended C1 theorem at a concrete input. -/
theorem graphSelfRefInvariantWitness :
    "a/x" ∉ lookupD (run ⟨false, false, [], "", "now"⟩
        ⟨fun _ => true, fun _ _ => false⟩
        { objects := [], namespaces := [], targetsFrom := [], targetsTo := [],
          watchedTargets := [], watchedPatterns := [], api := [],
          trace := [] }
        [.objectAdded
          ⟨"a", "x", "1", [("replicate-from", "b/y")], []⟩]).targetsTo
      "a/x" ∧
    "a/x" ∉ lookupD (run ⟨false, false, [], "", "now"⟩
        ⟨fun _ => true, fun _ _ => false⟩
        { objects := [], namespaces := [], targetsFrom := [], targetsTo := [],
          watchedTargets := [], watchedPatterns := [], api := [],
          trace := [] }
        [.objectAdded
          ⟨"a", "x", "1", [("replicate-from", "b/y")], []⟩]).targetsFrom
      "a/x" :=
  graphSelfRefInvariant ⟨false, false, [], "", "now"⟩
    ⟨fun _ => true, fun _ _ => false⟩
    { objects := [], namespaces := [], targetsFrom := [], targetsTo := [],
      watchedTargets := [], watchedPatterns := [], api := [], trace := [] }
    [.objectAdded ⟨"a", "x", "1", [("replicate-from", "b/y")], []⟩]
    "a/x" rfl rfl
    (fun m hm => absurd hm (List.not_mem_nil m))
    (fun r hr => absurd hr (List.not_mem_nil r))
    (by
      intro m hm
      have h := List.mem_singleton.mp hm
      injection h with h
      subst h
      intro hc
      rw [selfRef] at hc
      exact absurd hc (by decide))

end KR
